import Mathlib

/-!
Verification development for the graph-construction engine in
`src/backend/langflow/graph/graph/base.py` (class `Graph`).

The Python code is shallowly embedded as executable Lean definitions.
Python objects (Vertex instances) live in an arena: a `List BVertex`
indexed by position, so that the in-place mutation of a vertex id during
flow expansion, and the aliasing of vertices from edges, are modelled
faithfully.  A graph's `self.nodes` list is a list of arena indices, and
an `Edge` is a pair of arena indices (Python edges hold object
references to their endpoints).

External collaborators that are not part of the source file
(`Vertex` / `Edge` classes, `payload.get_root_node`, `VERTEX_TYPE_MAP`,
`FILE_TOOLS`) are modelled from the spec where a claim needs them; each
such definition carries a doc comment saying so.
-/

/-- Vertex variants.  Models the concrete `Vertex` subclasses
(`LLMVertex`, `ToolkitVertex`, `FileToolVertex`, `ConnectorVertex`, the
base `Vertex`, and a spare tag for the other entries of the external
type table). -/
inductive VKind where
  | llm
  | toolkit
  | fileTool
  | connector
  | generic
  | agent
deriving DecidableEq, Repr

/-- Modelled from the spec: a `Vertex` object.  `vid` is the (mutable)
string id, `variant` the concrete subclass chosen by the type resolver,
and `params` the parameter mapping populated at build time.  A parameter
value is an optional arena index: `some i` models a reference to the
vertex stored at arena slot `i`, and `none` models Python `None`. -/
structure BVertex where
  vid : String
  variant : VKind
  params : List (String × Option Nat)
deriving DecidableEq, Repr

instance : Inhabited BVertex := ⟨⟨"", VKind.generic, []⟩⟩

/-- Errors raised by the embedded code.  `sourceNotFound i` models
`ValueError("Source node " + i + " not found")`, `targetNotFound i`
models `ValueError("Target node " + i + " not found")`, `noRootNode`
models `ValueError("No root node found")`, and `attributeError` models
the `AttributeError` Python raises when an attribute of `None` is
accessed. -/
inductive BErr where
  | sourceNotFound (id : String)
  | targetNotFound (id : String)
  | noRootNode
  | attributeError
deriving DecidableEq, Repr

/-- Embedding of `Graph._get_node_class(node_type, node_lc_type)`.  The
two external lookup tables are passed as parameters: `fileTools` models
the `FILE_TOOLS` set and `typeMap` models the `VERTEX_TYPE_MAP` dict
(association list, `lookup` models `dict.get`). -/
def getNodeClass (fileTools : List String) (typeMap : List (String × VKind))
    (nodeType : String) (nodeLcType : String) : VKind :=
  if nodeType ∈ fileTools then
    VKind.fileTool
  else
    match typeMap.lookup nodeType with
    | some c => c
    | none =>
      match typeMap.lookup nodeLcType with
      | some c => c
      | none => VKind.generic

/-- Modelled from the spec: the contents of the external `FILE_TOOLS`
set (from `langflow.interface.tools.constants`) are not part of the
source file; a representative value is used for the concrete pipeline. -/
def FILE_TOOLS_M : List String := ["ReadFileTool", "WriteFileTool"]

/-- Modelled from the spec: the contents of the external
`VERTEX_TYPE_MAP` table (from `langflow.graph.graph.constants`) are not
part of the source file; the entries below follow the variants the spec
names (its end-to-end example maps the type tag "LLM" to the LLM variant
and "Toolkit" to the toolkit variant). -/
def VERTEX_TYPE_MAP_M : List (String × VKind) :=
  [("LLM", VKind.llm), ("Toolkit", VKind.toolkit),
   ("Connector", VKind.connector), ("Agent", VKind.agent)]

/-- Type resolution as performed by the pipeline: `_get_node_class` with
the two external tables plugged in. -/
def resolveClass (nodeType : String) (nodeLcType : String) : VKind :=
  getNodeClass FILE_TOOLS_M VERTEX_TYPE_MAP_M nodeType nodeLcType

/-- Lookup of a key in a parameter mapping; models `params[k]` read
access (`some v` when the key is present with value `v`). -/
def paramLookup (ps : List (String × Option Nat)) (k : String) : Option (Option Nat) :=
  (ps.find? (fun p => p.1 == k)).map (fun p => p.2)

/-- Dict assignment `params[k] = v`: overwrite the entry when the key is
present, append it otherwise. -/
def setParam (ps : List (String × Option Nat)) (k : String) (v : Option Nat) :
    List (String × Option Nat) :=
  if ps.any (fun p => p.1 == k) then
    ps.map (fun p => if p.1 == k then (p.1, v) else p)
  else
    ps ++ [(k, v)]

/-- Embedding of the `llm_node` scan of `Graph._build_nodes_and_edges`
(lines 100-105): iterate `self.nodes` and remember the last vertex that
is an `LLMVertex` (`None` when there is none).  `arena` is the object
store and `nodesL` the list of arena indices making up `self.nodes`. -/
def findLlmNode (arena : List BVertex) (nodesL : List Nat) : Option Nat :=
  nodesL.foldl
    (fun acc i => if (arena.getD i default).variant = VKind.llm then some i else acc)
    none

/-- Embedding of the injection loop of `Graph._build_nodes_and_edges`
(lines 107-109): for every `ToolkitVertex` in `self.nodes`, execute
`node.params["llm"] = llm_node`.  The per-vertex `_build_params` call is
vertex-internal (opaque to this file) and leaves `params` as whatever the
vertex holds. -/
def injectStep (llm : Option Nat) (ar : List BVertex) (i : Nat) : List BVertex :=
  if (ar.getD i default).variant = VKind.toolkit then
    ar.set i { ar.getD i default with params := setParam (ar.getD i default).params "llm" llm }
  else ar

/-- The whole injection pass: find the last LLM vertex, then run
`injectStep` over `self.nodes`. -/
def injectLlm (arena : List BVertex) (nodesL : List Nat) : List BVertex :=
  nodesL.foldl (injectStep (findLlmNode arena nodesL)) arena

/-- Embedding of `Graph._validate_node(node)`: a node is valid iff its
incident-edge set is non-empty.  The incident-edge set of the vertex at
arena index `i` is derived from the graph's edge list (every edge is
registered on both endpoints by the wiring loop of
`_build_nodes_and_edges`). -/
def validateNode (edges : List (Nat × Nat)) (i : Nat) : Bool :=
  edges.any (fun e => e.1 = i || e.2 = i)

/-- Embedding of the pruning comprehension of
`Graph._build_nodes_and_edges` (lines 111-116): keep a node iff
`_validate_node` accepts it, or the graph has exactly one node and zero
edges in total. -/
def pruneNodes (nodesL : List Nat) (edges : List (Nat × Nat)) : List Nat :=
  nodesL.filter (fun i => validateNode edges i || (nodesL.length == 1 && edges.length == 0))

/-- Embedding of `Graph.get_node(node_id)`: first vertex of `self.nodes`
whose `id` equals `node_id`, as an arena index (`none` models Python
`None`). -/
def getNode (arena : List BVertex) (nodesL : List Nat) (nodeId : String) : Option Nat :=
  nodesL.find? (fun i => (arena.getD i default).vid == nodeId)

/-- Embedding of `Graph._build_edges`: resolve each raw edge descriptor
`(source, target)` against the constructed vertex list; raise the
source / target not-found `ValueError` when a lookup fails, otherwise
construct the `Edge(source, target)` as a pair of arena indices. -/
def buildEdges (arena : List BVertex) (nodesL : List Nat)
    (edescs : List (String × String)) : Except BErr (List (Nat × Nat)) :=
  match edescs with
  | [] => Except.ok []
  | d :: rest =>
    match getNode arena nodesL d.1 with
    | none => Except.error (BErr.sourceNotFound d.1)
    | some i =>
      match getNode arena nodesL d.2 with
      | none => Except.error (BErr.targetNotFound d.2)
      | some j =>
        match buildEdges arena nodesL rest with
        | Except.error e => Except.error e
        | Except.ok es => Except.ok ((i, j) :: es)

/-- State of a constructed graph: the arena of vertex objects, the
`self.nodes` list (arena indices) and the `self.edges` list (pairs of
arena indices). -/
structure Built where
  arena : List BVertex
  nodes : List Nat
  edges : List (Nat × Nat)
deriving DecidableEq, Repr

/-- Modelled from the spec: `payload.get_root_node` (module
`langflow.utils.payload`, not part of the source file).  The spec
describes the root-selection policy as an external policy over the
graph's nodes and edges, "e.g., the vertex with no outgoing dependency
edge"; it is modelled as the first vertex of `self.nodes` that is the
source of no edge, `none` when every vertex is a source. -/
def getRootNode (g : Built) : Option Nat :=
  g.nodes.find? (fun i => g.edges.all (fun e => e.1 ≠ i))

/-- A plain (non-flow) node descriptor: id, primary type tag
(`data.type`) and secondary tag (`data.node.template._type`). -/
structure PlainDesc where
  pid : String
  vtype : String
  lcType : String
deriving DecidableEq, Repr

/-- Raw node descriptors of the input payload.  `plain` is an ordinary
descriptor; `flow` is a descriptor whose `data.node` carries an embedded
subgraph payload (its node descriptors and its raw edge list). -/
inductive NodeDesc where
  | plain (pid : String) (vtype : String) (lcType : String)
  | flow (fid : String) (subNodes : List NodeDesc) (subEdges : List (String × String))
deriving Repr

mutual

/-- Size of one raw node descriptor, counting nested subgraph
descriptors; used as recursion fuel for the expansion pipeline. -/
def descSize : NodeDesc → Nat
  | NodeDesc.plain _ _ _ => 1
  | NodeDesc.flow _ subN _ => 1 + descsSize subN

/-- Size of a raw descriptor list, counting nested subgraph
descriptors. -/
def descsSize : List NodeDesc → Nat
  | [] => 1
  | d :: rest => 1 + descSize d + descsSize rest

end

/-- Result of `expand_flow_nodes` over the raw descriptor list: the
vertices and edges transferred from expanded subgraphs (`arenaB`,
`nodesB`, `edgesB`, accumulated into `self.nodes` / `self.edges` in
descriptor order) and the surviving plain descriptors in order. -/
structure ExpandOut where
  arenaB : List BVertex
  nodesB : List Nat
  edgesB : List (Nat × Nat)
  plains : List PlainDesc
deriving DecidableEq, Repr

/-- Vertex instantiation for the plain descriptors left after expansion
(`Graph._build_nodes`, lines 186-201): descriptors whose primary tag is
"flow" are skipped, every other descriptor is instantiated with the
variant chosen by `_get_node_class`.  Parameter materialization
(`_build_params`) is vertex-internal and opaque; a fresh vertex starts
with an empty parameter mapping. -/
def buildPlainNodes (plains : List PlainDesc) : List BVertex :=
  plains.filterMap
    (fun p => if p.vtype == "flow" then none
              else some ⟨p.pid, resolveClass p.vtype p.lcType, []⟩)

/-- Assembly of a graph from the expansion result and the raw edge
descriptors: the remainder of `Graph.__init__` via
`_build_nodes_and_edges` after `expand_flow_nodes` has run.  In order:
append the plain vertices after the transferred subgraph vertices,
build the raw edges against the full node list, append them after the
transferred subgraph edges, run the LLM injection pass, prune. -/
def assemble (out : ExpandOut) (edescs : List (String × String)) : Except BErr Built :=
  let plainVs := buildPlainNodes out.plains
  let arena := out.arenaB ++ plainVs
  let nodesL := out.nodesB ++ (List.range plainVs.length).map (fun k => k + out.arenaB.length)
  match buildEdges arena nodesL edescs with
  | Except.error e => Except.error e
  | Except.ok newEdges =>
    let edges := out.edgesB ++ newEdges
    let arena2 := injectLlm arena nodesL
    Except.ok ⟨arena2, pruneNodes nodesL edges, edges⟩

/-- The in-place rename `subgraph_root.id = flow_node["id"]`: the
subgraph root's arena cell gets the flow node's id. -/
def renameArena (sg : Built) (ri : Nat) (fid : String) : List BVertex :=
  sg.arena.set ri { sg.arena.getD ri default with vid := fid }

/-- The `edges_to_update` repoint loop of `Graph.expand_flow_node`: for
every subgraph edge incident to the root object, an endpoint whose
`.id` still equals the pre-rename `old_id` is repointed to the root.
Because the rename has already happened, the root object itself no
longer carries `old_id`, so an endpoint is repointed only when it is a
DIFFERENT object that happens to carry the old id. -/
def repointEdges (sg : Built) (ri : Nat) (oldId : String) (arenaR : List BVertex) :
    List (Nat × Nat) :=
  sg.edges.map
    (fun e =>
      if e.1 = ri ∨ e.2 = ri then
        ((if (arenaR.getD e.1 default).vid == oldId then ri else e.1),
         (if (arenaR.getD e.2 default).vid == oldId then ri else e.2))
      else e)

/-- Embedding of `Graph.expand_flow_nodes` plus, for each flow
descriptor, `Graph.expand_flow_node`.  Structural recursion on `fuel`
(any fuel at least `descsSize descs` is enough; `buildGraphD`
below instantiates it).  For a flow descriptor: build the subgraph
(recursively running the whole pipeline), resolve its root, read the
root's id (this is `old_id = subgraph_root.id`, which raises
`AttributeError` when root resolution yielded `None`, before the
`if subgraph_root is None` check on the following source line can run),
rename the root to the flow node's id, run the repoint loop over the
edges incident to the root object, and transfer the subgraph's nodes
and edges into the parent (indices shifted past the parent slots this
block occupies). -/
def expandAllF (fuel : Nat) (descs : List NodeDesc) : Except BErr ExpandOut :=
  match fuel with
  | 0 => Except.error BErr.attributeError
  | fuel + 1 =>
    match descs with
    | [] => Except.ok ⟨[], [], [], []⟩
    | NodeDesc.plain pid t lc :: rest =>
      match expandAllF fuel rest with
      | Except.error e => Except.error e
      | Except.ok out => Except.ok ⟨out.arenaB, out.nodesB, out.edgesB, ⟨pid, t, lc⟩ :: out.plains⟩
    | NodeDesc.flow fid subN subE :: rest =>
      match expandAllF fuel subN with
      | Except.error e => Except.error e
      | Except.ok outS =>
        match assemble outS subE with
        | Except.error e => Except.error e
        | Except.ok sg =>
          match getRootNode sg with
          | none => Except.error BErr.attributeError
          | some ri =>
            match expandAllF fuel rest with
            | Except.error e => Except.error e
            | Except.ok out =>
              Except.ok ⟨renameArena sg ri fid ++ out.arenaB,
                         sg.nodes ++ out.nodesB.map (fun i => i + (renameArena sg ri fid).length),
                         repointEdges sg ri (sg.arena.getD ri default).vid (renameArena sg ri fid)
                           ++ out.edgesB.map
                             (fun e => (e.1 + (renameArena sg ri fid).length,
                                        e.2 + (renameArena sg ri fid).length)),
                         out.plains⟩

/-- Full embedding of `Graph.__init__(graph_data=...)`: expansion of the
raw descriptor list followed by assembly. -/
def buildGraphD (descs : List NodeDesc) (edescs : List (String × String)) : Except BErr Built :=
  match expandAllF (descsSize descs) descs with
  | Except.error e => Except.error e
  | Except.ok out => assemble out edescs

/-- Embedding of `Graph.build()`: resolve the root via the external
policy and raise `ValueError("No root node found")` when it yields
`None`; otherwise hand over to the root vertex's own (opaque) `build`,
modelled as returning the root. -/
def buildCall (g : Built) : Except BErr Nat :=
  match getRootNode g with
  | none => Except.error BErr.noRootNode
  | some ri => Except.ok ri

/-- Identifier contribution of one raw descriptor to the constructed
node list: a plain descriptor contributes its own id (nothing when its
primary tag is "flow"); a flow descriptor contributes the ids of its
expanded subgraph's node list after the root has been renamed to the
flow node's id. -/
def contribIds (d : NodeDesc) : Except BErr (List String) :=
  match d with
  | NodeDesc.plain pid t _ => Except.ok (if t == "flow" then [] else [pid])
  | NodeDesc.flow fid subN subE =>
    match buildGraphD subN subE with
    | Except.error e => Except.error e
    | Except.ok sg =>
      match getRootNode sg with
      | none => Except.error BErr.attributeError
      | some ri =>
        Except.ok (sg.nodes.map (fun i => ((renameArena sg ri fid).getD i default).vid))

/-- Modelled from the spec: a wired graph as seen by
`Graph.traverse_graph`, reduced to its edge relation.  Vertices are
identified by their object (a `Nat` key); an edge is the ordered pair
`(source, target)` of its endpoints, which is also its identity for set
membership (the spec defines `Edge` equality by the two endpoints). -/
structure TGraph where
  edges : List (Nat × Nat)
deriving DecidableEq, Repr

/-- Incident-edge set `node.edges` of a vertex in a wired graph: every
edge whose source or target is the vertex, without duplicates (Python
stores them in a set). -/
def nodeEdges (g : TGraph) (v : Nat) : List (Nat × Nat) :=
  (g.edges.filter (fun e => e.1 = v || e.2 = v)).dedup

/-- The loop state of `Graph.traverse_graph`: the work stack (head is
the top, i.e. the element `stack.pop()` removes), the visited-node set
and the visited-edge set. -/
structure DfsState where
  stack : List Nat
  visitedN : List Nat
  visitedE : List (Nat × Nat)
deriving DecidableEq, Repr

/-- The node pushed for an edge scanned at `node`:
`edge.source if edge.source != node else edge.target`. -/
def pushTarget (node : Nat) (e : Nat × Nat) : Nat :=
  if e.1 ≠ node then e.1 else e.2

/-- One-or-more iterations of the `while stack` loop of
`Graph.traverse_graph`, driven by fuel.  Popping an already-visited
node discards it; popping a new node marks it visited, marks its
not-yet-visited incident edges visited and pushes their opposite
endpoints (in scan order, so the last scanned edge's endpoint ends on
top of the stack). -/
def dfsRun (g : TGraph) : Nat → DfsState → DfsState
  | 0, s => s
  | fuel + 1, s =>
    match s.stack with
    | [] => s
    | node :: rest =>
      if node ∈ s.visitedN then
        dfsRun g fuel ⟨rest, s.visitedN, s.visitedE⟩
      else
        let newEdges := (nodeEdges g node).filter (fun e => e ∉ s.visitedE)
        dfsRun g fuel
          ⟨(newEdges.map (pushTarget node)).reverse ++ rest,
           node :: s.visitedN,
           newEdges ++ s.visitedE⟩

/-- Fuel sufficient for `dfsRun` to drain its stack from the initial
state: one iteration per distinct edge plus one for the root (proved
below). -/
def dfsFuel (g : TGraph) : Nat :=
  g.edges.dedup.length + 1

/-- Embedding of `Graph.traverse_graph(root_node)`: run the DFS loop
from a stack holding only the root and return the visited nodes and
visited edges. -/
def traverseGraph (g : TGraph) (root : Nat) : List Nat × List (Nat × Nat) :=
  let s := dfsRun g (dfsFuel g) ⟨[root], [], []⟩
  (s.visitedN, s.visitedE)

/-- Connectivity closure: the vertices reachable from `root` by
following incident edges in either direction. -/
inductive Reachable (g : TGraph) (root : Nat) : Nat → Prop where
  | refl : Reachable g root root
  | fwd {u v : Nat} : Reachable g root u → (u, v) ∈ g.edges → Reachable g root v
  | bwd {u v : Nat} : Reachable g root u → (v, u) ∈ g.edges → Reachable g root v

/-- A `Graph` object as produced by `Graph.__init__`: `attrs` is
`some (nodes, edges)` when the constructor branch that assigns
`self.nodes` / `self.edges` ran, and `none` when no branch ran and the
object has neither attribute. -/
structure PyGraph where
  attrs : Option (List Nat × List (Nat × Nat))
deriving DecidableEq, Repr

/-- Embedding of `Graph.__init__(nodes=nodes, edges=edges)` (no
`graph_data`): the `elif nodes and edges` branch assigns the two
attributes only when both lists are non-empty (an empty Python list is
falsy), otherwise the constructor finishes without setting them. -/
def graphFromParts (nodes : List Nat) (edges : List (Nat × Nat)) : PyGraph :=
  if !nodes.isEmpty && !edges.isEmpty then ⟨some (nodes, edges)⟩ else ⟨none⟩

/-- Embedding of `Graph.from_root_node(root_node)`: traverse from the
root and hand the collected nodes and edges to the constructor. -/
def fromRootNode (g : TGraph) (root : Nat) : PyGraph :=
  let r := traverseGraph g root
  graphFromParts r.1 r.2

/-- Queries on a `PyGraph`: reading a missing attribute raises
`AttributeError`.  `pgGetNode` models `Graph.get_node`. -/
def pgGetNode (g : PyGraph) (nid : Nat) : Except BErr (Option Nat) :=
  match g.attrs with
  | none => Except.error BErr.attributeError
  | some (ns, _) => Except.ok (ns.find? (fun i => i == nid))

/-- Dict increment used by `Graph.get_node_neighbors`: the entry for a
neighbor is created at zero when absent and then incremented, which
amounts to bumping the entry when present and inserting it at one
otherwise. -/
def nbIncr (nb : List (Nat × Nat)) (w : Nat) : List (Nat × Nat) :=
  if nb.any (fun p => p.1 == w) then
    nb.map (fun p => if p.1 == w then (p.1, p.2 + 1) else p)
  else nb ++ [(w, 1)]

/-- One loop iteration of `Graph.get_node_neighbors(node)`: if the
edge's source is the node, increment the target's count; `elif` the
edge's target is the node, increment the source's count; otherwise
leave the map unchanged. -/
def nbStep (v : Nat) (nb : List (Nat × Nat)) (e : Nat × Nat) : List (Nat × Nat) :=
  if e.1 = v then nbIncr nb e.2
  else if e.2 = v then nbIncr nb e.1
  else nb

/-- Core of `Graph.get_node_neighbors(node)`: scan `self.edges` and, for
each edge having `node` as its source (or, failing that, as its target),
increment the count of the opposite endpoint. -/
def getNodeNeighbors (es : List (Nat × Nat)) (v : Nat) : List (Nat × Nat) :=
  es.foldl (nbStep v) []

/-- Lookup in the neighbor map: `some k` when the neighbor is a key of
the dict with count `k`, `none` when it does not appear. -/
def nbLookup (nb : List (Nat × Nat)) (x : Nat) : Option Nat :=
  (nb.find? (fun p => p.1 == x)).map (fun p => p.2)

/-- Embedding of `Graph.get_node_neighbors(node)` over a `PyGraph`,
plus the attribute check. -/
def pgNeighbors (g : PyGraph) (v : Nat) : Except BErr (List (Nat × Nat)) :=
  match g.attrs with
  | none => Except.error BErr.attributeError
  | some (_, es) => Except.ok (getNodeNeighbors es v)

/-- Embedding of `Graph.build()` over a `PyGraph`: resolving the root
reads `self.nodes`, so a graph without the attribute raises
`AttributeError`; with it, a failed root resolution raises the explicit
`ValueError("No root node found")`. -/
def pgBuild (g : PyGraph) : Except BErr Nat :=
  match g.attrs with
  | none => Except.error BErr.attributeError
  | some (ns, es) =>
    match ns.find? (fun i => es.all (fun e => e.1 ≠ i)) with
    | none => Except.error BErr.noRootNode
    | some r => Except.ok r

/-- Embedding of `Graph.__eq__` between two `Graph` objects: comparing
reads `self.nodes` / `self.edges` of both sides, so a side without the
attributes raises `AttributeError`. -/
def pgEq (a b : PyGraph) : Except BErr Bool :=
  match a.attrs with
  | none => Except.error BErr.attributeError
  | some (ns, es) =>
    match b.attrs with
    | none => Except.error BErr.attributeError
    | some (ns2, es2) => Except.ok (ns == ns2 && es == es2)

/-! ### Lemmas about vertex lookup and edge construction -/

theorem getNode_eq_some {arena : List BVertex} {nodesL : List Nat} {s : String} {i : Nat}
    (h : getNode arena nodesL s = some i) :
    i ∈ nodesL ∧ (arena.getD i default).vid = s := by
  unfold getNode at h
  refine ⟨List.mem_of_find?_eq_some h, ?_⟩
  have := List.find?_some h
  simpa using this

theorem getNode_isSome_of_mem {arena : List BVertex} {nodesL : List Nat} {s : String} {i : Nat}
    (hi : i ∈ nodesL) (hvid : (arena.getD i default).vid = s) :
    (getNode arena nodesL s).isSome := by
  unfold getNode
  rw [List.find?_isSome]
  refine ⟨i, hi, ?_⟩
  simp only [beq_iff_eq]
  exact hvid

theorem buildEdges_ok_mem {arena : List BVertex} {nodesL : List Nat}
    {edescs : List (String × String)} {es : List (Nat × Nat)}
    (h : buildEdges arena nodesL edescs = Except.ok es) :
    ∀ d ∈ edescs, ∃ i j, (i, j) ∈ es ∧
      getNode arena nodesL d.1 = some i ∧ getNode arena nodesL d.2 = some j := by
  induction edescs generalizing es with
  | nil => intro d hd; simp at hd
  | cons d0 rest ih =>
    intro d hd
    unfold buildEdges at h
    cases hs : getNode arena nodesL d0.1 with
    | none => simp [hs] at h
    | some i0 =>
      cases ht : getNode arena nodesL d0.2 with
      | none => simp [hs, ht] at h
      | some j0 =>
        cases hr : buildEdges arena nodesL rest with
        | error e => simp [hs, ht, hr] at h
        | ok es0 =>
          simp [hs, ht, hr] at h
          rcases List.mem_cons.mp hd with hd0 | hdr
          · subst hd0; exact ⟨i0, j0, by simp [← h], hs, ht⟩
          · obtain ⟨i, j, hm, h1, h2⟩ := ih hr d hdr
            exact ⟨i, j, by simp [← h, hm], h1, h2⟩

theorem buildEdges_ok_length {arena : List BVertex} {nodesL : List Nat}
    {edescs : List (String × String)} {es : List (Nat × Nat)}
    (h : buildEdges arena nodesL edescs = Except.ok es) :
    es.length = edescs.length := by
  induction edescs generalizing es with
  | nil => unfold buildEdges at h; simp at h; simp [← h]
  | cons d0 rest ih =>
    unfold buildEdges at h
    cases hs : getNode arena nodesL d0.1 with
    | none => simp [hs] at h
    | some i0 =>
      cases ht : getNode arena nodesL d0.2 with
      | none => simp [hs, ht] at h
      | some j0 =>
        cases hr : buildEdges arena nodesL rest with
        | error e => simp [hs, ht, hr] at h
        | ok es0 => simp [hs, ht, hr] at h; simp [← h, ih hr]

theorem buildEdges_error_shape {arena : List BVertex} {nodesL : List Nat}
    {edescs : List (String × String)} {err : BErr}
    (h : buildEdges arena nodesL edescs = Except.error err) :
    (∃ d ∈ edescs, err = BErr.sourceNotFound d.1 ∧ getNode arena nodesL d.1 = none) ∨
    (∃ d ∈ edescs, err = BErr.targetNotFound d.2 ∧ getNode arena nodesL d.2 = none) := by
  induction edescs with
  | nil => unfold buildEdges at h; simp at h
  | cons d0 rest ih =>
    unfold buildEdges at h
    cases hs : getNode arena nodesL d0.1 with
    | none =>
      simp [hs] at h
      exact Or.inl ⟨d0, by simp, by simp [← h], hs⟩
    | some i0 =>
      cases ht : getNode arena nodesL d0.2 with
      | none =>
        simp [hs, ht] at h
        exact Or.inr ⟨d0, by simp, by simp [← h], ht⟩
      | some j0 =>
        cases hr : buildEdges arena nodesL rest with
        | error e =>
          simp [hs, ht, hr] at h
          subst h
          rcases ih hr with ⟨d, hd, he⟩ | ⟨d, hd, he⟩
          · exact Or.inl ⟨d, List.mem_cons_of_mem _ hd, he⟩
          · exact Or.inr ⟨d, List.mem_cons_of_mem _ hd, he⟩
        | ok es0 => simp [hs, ht, hr] at h

theorem buildEdges_ok_of_resolvable {arena : List BVertex} {nodesL : List Nat}
    {edescs : List (String × String)}
    (h : ∀ d ∈ edescs, (getNode arena nodesL d.1).isSome ∧ (getNode arena nodesL d.2).isSome) :
    ∃ es, buildEdges arena nodesL edescs = Except.ok es := by
  induction edescs with
  | nil => exact ⟨[], rfl⟩
  | cons d0 rest ih =>
    obtain ⟨h1, h2⟩ := h d0 (by simp)
    obtain ⟨i0, hs⟩ := Option.isSome_iff_exists.mp h1
    obtain ⟨j0, ht⟩ := Option.isSome_iff_exists.mp h2
    obtain ⟨es0, hr⟩ := ih (fun d hd => h d (List.mem_cons_of_mem _ hd))
    exact ⟨(i0, j0) :: es0, by unfold buildEdges; simp [hs, ht, hr]⟩

/-! ### Claim C6: vertex type resolution -/

/-- Claim C6: for every primary type tag and secondary
language-construct type tag, the vertex type resolver returns the
file-tool variant if the primary tag is in the file-tool set (taking
precedence over the general table); otherwise the general table's entry
for the primary tag; otherwise the table's entry for the secondary tag;
otherwise the generic Vertex variant.  `getNodeClass` is a total
function, so no error is raised for an unknown type. -/
theorem c6_node_class_resolution
    (fileTools : List String) (typeMap : List (String × VKind)) (t lc : String) :
    (t ∈ fileTools → getNodeClass fileTools typeMap t lc = VKind.fileTool)
    ∧ (t ∉ fileTools → ∀ c, typeMap.lookup t = some c →
        getNodeClass fileTools typeMap t lc = c)
    ∧ (t ∉ fileTools → typeMap.lookup t = none → ∀ c, typeMap.lookup lc = some c →
        getNodeClass fileTools typeMap t lc = c)
    ∧ (t ∉ fileTools → typeMap.lookup t = none → typeMap.lookup lc = none →
        getNodeClass fileTools typeMap t lc = VKind.generic) := by
  refine ⟨fun h => ?_, fun h c hc => ?_, fun h h1 c hc => ?_, fun h h1 h2 => ?_⟩ <;>
    simp [getNodeClass, *]

/-- Witness for C6 at concrete inputs.  The first conjunct shows the
file-tool precedence: the tag is in the file-tool set and also mapped by
the table, yet the file-tool variant wins; the last shows the generic
fallback for a tag unknown everywhere. -/
theorem c6_witness :
    getNodeClass ["ReadFileTool"] [("ReadFileTool", VKind.agent)] "ReadFileTool" "x"
      = VKind.fileTool
    ∧ getNodeClass ["ReadFileTool"] [("LLM", VKind.llm)] "zzz" "qqq" = VKind.generic := by
  constructor
  · exact (c6_node_class_resolution ["ReadFileTool"] [("ReadFileTool", VKind.agent)]
      "ReadFileTool" "x").1 (by decide)
  · exact (c6_node_class_resolution ["ReadFileTool"] [("LLM", VKind.llm)]
      "zzz" "qqq").2.2.2 (by decide) (by decide) (by decide)

/-! ### Claim C5: pruning -/

/-- Claim C5: after the pruning step, every vertex with zero incident
edges has been removed from the node list, except that a graph with
exactly one node and zero edges in total keeps its single isolated
node. -/
theorem c5_pruning (nodesL : List Nat) (edges : List (Nat × Nat)) :
    (¬(nodesL.length = 1 ∧ edges.length = 0) →
      ∀ i ∈ nodesL, validateNode edges i = false → i ∉ pruneNodes nodesL edges)
    ∧ ((nodesL.length = 1 ∧ edges.length = 0) → pruneNodes nodesL edges = nodesL)
    ∧ (∀ i ∈ pruneNodes nodesL edges, validateNode edges i = true ∨
        (nodesL.length = 1 ∧ edges.length = 0)) := by
  refine ⟨?_, ?_, ?_⟩
  · intro h i _ hval hmem
    rw [pruneNodes, List.mem_filter] at hmem
    rcases hmem with ⟨-, hkeep⟩
    rw [Bool.or_eq_true] at hkeep
    rcases hkeep with hv | hsingle
    · rw [hval] at hv; exact Bool.false_ne_true hv
    · rw [Bool.and_eq_true] at hsingle
      simp only [beq_iff_eq] at hsingle
      exact h hsingle
  · intro h
    rw [pruneNodes]
    apply List.filter_eq_self.mpr
    intro i _
    simp [h.1, h.2]
  · intro i hmem
    rw [pruneNodes, List.mem_filter] at hmem
    rcases hmem with ⟨-, hkeep⟩
    rw [Bool.or_eq_true] at hkeep
    rcases hkeep with hv | hsingle
    · exact Or.inl hv
    · rw [Bool.and_eq_true] at hsingle
      simp only [beq_iff_eq] at hsingle
      exact Or.inr hsingle

/-- Witness for C5: with two isolated nodes both are pruned; a single
isolated node is kept. -/
theorem c5_witness :
    (¬(([7, 8] : List Nat).length = 1 ∧ ([] : List (Nat × Nat)).length = 0)
      ∧ 7 ∉ pruneNodes [7, 8] [])
    ∧ pruneNodes [7] [] = [7] := by
  refine ⟨⟨by decide, ?_⟩, ?_⟩
  · exact (c5_pruning [7, 8] []).1 (by decide) 7 (by decide) (by decide)
  · exact (c5_pruning [7] []).2.1 (by decide)

/-! ### Claim C3: referential integrity of edge construction -/

/-- Claim C3: if some raw edge descriptor has a source or target id that
resolves to no constructed vertex, edge construction fails, and the
error names exactly a missing id taken from a descriptor (source
not-found or target not-found, with the named id indeed resolving to no
vertex); if every endpoint of every descriptor resolves, an edge is
constructed per descriptor and no error is raised. -/
theorem c3_referential_integrity (arena : List BVertex) (nodesL : List Nat)
    (edescs : List (String × String)) :
    ((∃ d ∈ edescs, getNode arena nodesL d.1 = none ∨ getNode arena nodesL d.2 = none) →
      ∃ err, buildEdges arena nodesL edescs = Except.error err
        ∧ ((∃ s, err = BErr.sourceNotFound s ∧ getNode arena nodesL s = none
              ∧ ∃ d ∈ edescs, d.1 = s)
           ∨ (∃ t, err = BErr.targetNotFound t ∧ getNode arena nodesL t = none
              ∧ ∃ d ∈ edescs, d.2 = t)))
    ∧ ((∀ d ∈ edescs, (getNode arena nodesL d.1).isSome ∧ (getNode arena nodesL d.2).isSome) →
      ∃ es, buildEdges arena nodesL edescs = Except.ok es ∧ es.length = edescs.length) := by
  constructor
  · intro hmiss
    cases hbe : buildEdges arena nodesL edescs with
    | ok es =>
      exfalso
      obtain ⟨d, hd, hnone⟩ := hmiss
      obtain ⟨i, j, -, h1, h2⟩ := buildEdges_ok_mem hbe d hd
      rcases hnone with hn | hn
      · rw [h1] at hn; exact Option.noConfusion hn
      · rw [h2] at hn; exact Option.noConfusion hn
    | error err =>
      refine ⟨err, rfl, ?_⟩
      rcases buildEdges_error_shape hbe with ⟨d, hd, herr, hn⟩ | ⟨d, hd, herr, hn⟩
      · exact Or.inl ⟨d.1, herr, hn, d, hd, rfl⟩
      · exact Or.inr ⟨d.2, herr, hn, d, hd, rfl⟩
  · intro hres
    obtain ⟨es, hbe⟩ := buildEdges_ok_of_resolvable hres
    exact ⟨es, hbe, buildEdges_ok_length hbe⟩

/-- Witness for C3: a concrete descriptor list with a dangling target
id satisfies the failure hypothesis and the theorem yields the named
error; a fully-resolvable list satisfies the success hypothesis and the
theorem yields one edge per descriptor. -/
theorem c3_witness :
    ((∃ d ∈ [(("a" : String), ("zz" : String))],
        getNode [⟨"a", VKind.generic, []⟩, ⟨"b", VKind.generic, []⟩] [0, 1] d.1 = none
        ∨ getNode [⟨"a", VKind.generic, []⟩, ⟨"b", VKind.generic, []⟩] [0, 1] d.2 = none)
      ∧ ∃ err, buildEdges [⟨"a", VKind.generic, []⟩, ⟨"b", VKind.generic, []⟩] [0, 1]
          [("a", "zz")] = Except.error err
        ∧ ((∃ s, err = BErr.sourceNotFound s
              ∧ getNode [⟨"a", VKind.generic, []⟩, ⟨"b", VKind.generic, []⟩] [0, 1] s = none
              ∧ ∃ d ∈ [(("a" : String), ("zz" : String))], d.1 = s)
           ∨ (∃ t, err = BErr.targetNotFound t
              ∧ getNode [⟨"a", VKind.generic, []⟩, ⟨"b", VKind.generic, []⟩] [0, 1] t = none
              ∧ ∃ d ∈ [(("a" : String), ("zz" : String))], d.2 = t)))
    ∧ ∃ es, buildEdges [⟨"a", VKind.generic, []⟩, ⟨"b", VKind.generic, []⟩] [0, 1]
        [("a", "b")] = Except.ok es ∧ es.length = 1 := by
  refine ⟨⟨by decide, ?_⟩, ?_⟩
  · exact (c3_referential_integrity [⟨"a", VKind.generic, []⟩, ⟨"b", VKind.generic, []⟩]
      [0, 1] [("a", "zz")]).1 (by decide)
  · exact (c3_referential_integrity [⟨"a", VKind.generic, []⟩, ⟨"b", VKind.generic, []⟩]
      [0, 1] [("a", "b")]).2 (by decide)

/-! ### Claim C4: root-resolution errors -/

/-- Claim C4 is refuted by the code: at `Graph.build()` time a failed
root resolution does raise the explicit `ValueError("No root node
found")` (first conjunct), but at flow-expansion time the read
`old_id = subgraph_root.id` precedes the `if subgraph_root is None`
check, so a flow node whose embedded subgraph has no resolvable root
(here: a two-node cycle, in which every vertex is the source of an
edge) aborts with an `AttributeError` instead of the explicit error
(second conjunct); the `raise ValueError("No root node found")` on the
next source line is unreachable. -/
theorem c4_divergence :
    buildCall ⟨[⟨"X", VKind.generic, []⟩, ⟨"Y", VKind.generic, []⟩], [0, 1], [(0, 1), (1, 0)]⟩
      = Except.error BErr.noRootNode
    ∧ buildGraphD
        [NodeDesc.flow "F" [NodeDesc.plain "X" "a" "", NodeDesc.plain "Y" "b" ""]
          [("X", "Y"), ("Y", "X")]] []
      = Except.error BErr.attributeError := by
  constructor
  · rfl
  · rfl

/-! ### Lemmas about the DFS loop -/

theorem dfsRun_nil_stack {g : TGraph} {s : DfsState} (h : s.stack = []) :
    ∀ fuel, dfsRun g fuel s = s := by
  intro fuel
  cases fuel with
  | zero => rfl
  | succ n =>
    unfold dfsRun
    rw [h]

theorem dfsRun_skip {g : TGraph} {node : Nat} {rest vN : List Nat} {vE : List (Nat × Nat)}
    (h : node ∈ vN) (n : Nat) :
    dfsRun g (n + 1) ⟨node :: rest, vN, vE⟩ = dfsRun g n ⟨rest, vN, vE⟩ := by
  simp only [dfsRun]
  rw [if_pos h]

theorem dfsRun_visit {g : TGraph} {node : Nat} {rest vN : List Nat} {vE : List (Nat × Nat)}
    (h : node ∉ vN) (n : Nat) :
    dfsRun g (n + 1) ⟨node :: rest, vN, vE⟩ =
      dfsRun g n
        ⟨(((nodeEdges g node).filter (fun e => e ∉ vE)).map (pushTarget node)).reverse ++ rest,
         node :: vN,
         ((nodeEdges g node).filter (fun e => e ∉ vE)) ++ vE⟩ := by
  simp only [dfsRun]
  rw [if_neg h]

theorem traverse_isolated {g : TGraph} {root : Nat} (h : nodeEdges g root = []) :
    traverseGraph g root = ([root], []) := by
  unfold traverseGraph dfsFuel
  rw [dfsRun_visit (by simp) g.edges.dedup.length]
  rw [h]
  simp only [List.filter_nil, List.map_nil, List.reverse_nil, List.nil_append]
  rw [dfsRun_nil_stack rfl]

/-! ### Claim C9: the empty-argument constructor branch -/

/-- Claim C9: when the constructor is called without `graph_data` and
with an empty `nodes` or `edges` list, the `elif nodes and edges` branch
is not taken, the graph object gets neither attribute, and every
subsequent query (`get_node`, `get_node_neighbors`, `build`, equality)
raises `AttributeError` instead of treating the graph as empty; in
particular `from_root_node` applied to a vertex with no incident edges
produces exactly such a graph. -/
theorem c9_empty_constructor (ns : List Nat) (es : List (Nat × Nat))
    (tg : TGraph) (root nid v : Nat) (other : PyGraph)
    (h : ns = [] ∨ es = []) :
    (graphFromParts ns es).attrs = none
    ∧ pgGetNode (graphFromParts ns es) nid = Except.error BErr.attributeError
    ∧ pgNeighbors (graphFromParts ns es) v = Except.error BErr.attributeError
    ∧ pgBuild (graphFromParts ns es) = Except.error BErr.attributeError
    ∧ pgEq (graphFromParts ns es) other = Except.error BErr.attributeError
    ∧ (nodeEdges tg root = [] →
        fromRootNode tg root = graphFromParts [root] [] ∧ (fromRootNode tg root).attrs = none) := by
  have hattrs : (graphFromParts ns es).attrs = none := by
    unfold graphFromParts
    rcases h with h | h <;> simp [h]
  refine ⟨hattrs, ?_, ?_, ?_, ?_, ?_⟩
  · unfold pgGetNode; rw [hattrs]
  · unfold pgNeighbors; rw [hattrs]
  · unfold pgBuild; rw [hattrs]
  · unfold pgEq; rw [hattrs]
  · intro hiso
    have htrav := traverse_isolated hiso
    constructor
    · unfold fromRootNode
      rw [htrav]
    · unfold fromRootNode
      rw [htrav]
      unfold graphFromParts
      simp

/-- Witness for C9: a concrete graph with one edge between 1 and 2, and
the isolated root 0. -/
theorem c9_witness :
    (graphFromParts [5] []).attrs = none
    ∧ pgGetNode (graphFromParts [5] []) 5 = Except.error BErr.attributeError
    ∧ pgNeighbors (graphFromParts [5] []) 5 = Except.error BErr.attributeError
    ∧ pgBuild (graphFromParts [5] []) = Except.error BErr.attributeError
    ∧ pgEq (graphFromParts [5] []) ⟨some ([5], [(5, 5)])⟩ = Except.error BErr.attributeError
    ∧ (nodeEdges ⟨[(1, 2)]⟩ 0 = [] →
        fromRootNode ⟨[(1, 2)]⟩ 0 = graphFromParts [0] []
        ∧ (fromRootNode ⟨[(1, 2)]⟩ 0).attrs = none) :=
  c9_empty_constructor [5] [] ⟨[(1, 2)]⟩ 0 5 5 ⟨some ([5], [(5, 5)])⟩ (Or.inr rfl)

/-! ### Lemmas about the LLM injection pass -/

theorem paramLookup_setParam (ps : List (String × Option Nat)) (k : String) (v : Option Nat) :
    paramLookup (setParam ps k v) k = some v := by
  unfold setParam
  by_cases hany : ps.any (fun p => p.1 == k) = true
  · rw [if_pos hany]
    induction ps with
    | nil => simp at hany
    | cons p ps ih =>
      by_cases hp : p.1 == k
      · unfold paramLookup
        simp only [List.map_cons, hp, if_pos]
        rw [List.find?_cons_of_pos _ (by simpa using hp)]
        simp
      · have htail : ps.any (fun p => p.1 == k) = true := by
          simp only [List.any_cons, hp, Bool.false_or] at hany
          exact hany
        have := ih htail
        unfold paramLookup at this ⊢
        simp only [List.map_cons, hp, if_neg, Bool.false_eq_true, not_false_iff, ite_false]
        rw [List.find?_cons_of_neg _ (by simpa using hp)]
        exact this
  · rw [if_neg hany]
    unfold paramLookup
    rw [List.find?_append]
    have hnone : ps.find? (fun p => p.1 == k) = none := by
      rw [List.find?_eq_none]
      intro p hp
      have := List.any_eq_false.mp (Bool.not_eq_true _ ▸ hany) p hp
      simp [this]
    rw [hnone]
    simp

theorem injectStep_length (v : Option Nat) (ar : List BVertex) (i : Nat) :
    (injectStep v ar i).length = ar.length := by
  unfold injectStep
  by_cases h : (ar.getD i default).variant = VKind.toolkit
  · rw [if_pos h]; exact List.length_set ar i _
  · rw [if_neg h]

theorem injectStep_getD_ne (v : Option Nat) (ar : List BVertex) {i j : Nat} (h : i ≠ j) :
    (injectStep v ar i).getD j default = ar.getD j default := by
  unfold injectStep
  by_cases hv : (ar.getD i default).variant = VKind.toolkit
  · rw [if_pos hv]; simp [List.getD, List.getElem?_set_ne h]
  · rw [if_neg hv]

theorem injectStep_getD_self (v : Option Nat) (ar : List BVertex) {i : Nat} (h : i < ar.length) :
    (injectStep v ar i).getD i default =
      if (ar.getD i default).variant = VKind.toolkit then
        { ar.getD i default with params := setParam (ar.getD i default).params "llm" v }
      else ar.getD i default := by
  unfold injectStep
  by_cases hv : (ar.getD i default).variant = VKind.toolkit
  · rw [if_pos hv, if_pos hv]
    simp [List.getD, List.getElem?_set_self, h]
  · rw [if_neg hv, if_neg hv]

theorem injectFold_getD (v : Option Nat) (l : List Nat) :
    ∀ (ar : List BVertex) (j : Nat), l.Nodup → (∀ i ∈ l, i < ar.length) →
    (l.foldl (injectStep v) ar).getD j default =
      if j ∈ l ∧ (ar.getD j default).variant = VKind.toolkit then
        { ar.getD j default with params := setParam (ar.getD j default).params "llm" v }
      else ar.getD j default := by
  induction l with
  | nil => intro ar j _ _; simp
  | cons i l ih =>
    intro ar j hnd hval
    have hnotmem : i ∉ l := (List.nodup_cons.mp hnd).1
    have hndl : l.Nodup := (List.nodup_cons.mp hnd).2
    have hvalstep : ∀ i2 ∈ l, i2 < (injectStep v ar i).length := by
      intro i2 hi2
      rw [injectStep_length]
      exact hval i2 (List.mem_cons_of_mem _ hi2)
    rw [List.foldl_cons, ih (injectStep v ar i) j hndl hvalstep]
    by_cases hji : j = i
    · subst hji
      rw [if_neg (by simp [hnotmem])]
      rw [injectStep_getD_self v ar (hval j (by simp))]
      simp
    · rw [injectStep_getD_ne v ar (fun he => hji he.symm)]
      simp only [List.mem_cons, hji, false_or]

theorem llmFold_of_filter_nil (arena : List BVertex) (l : List Nat) :
    ∀ acc : Option Nat,
    l.filter (fun i => decide ((arena.getD i default).variant = VKind.llm)) = [] →
    l.foldl (fun acc i => if (arena.getD i default).variant = VKind.llm then some i else acc) acc
      = acc := by
  induction l with
  | nil => intro acc _; rfl
  | cons i l ih =>
    intro acc hf
    rw [List.filter_cons] at hf
    by_cases hp : (arena.getD i default).variant = VKind.llm
    · rw [if_pos (by simpa using hp)] at hf
      exact absurd hf (by simp)
    · rw [if_neg (by simpa using hp)] at hf
      rw [List.foldl_cons, if_neg hp]
      exact ih acc hf

theorem llmFold_of_filter_singleton (arena : List BVertex) (l : List Nat) :
    ∀ (acc : Option Nat) (x : Nat),
    l.filter (fun i => decide ((arena.getD i default).variant = VKind.llm)) = [x] →
    l.foldl (fun acc i => if (arena.getD i default).variant = VKind.llm then some i else acc) acc
      = some x := by
  induction l with
  | nil => intro acc x hf; simp at hf
  | cons i l ih =>
    intro acc x hf
    rw [List.filter_cons] at hf
    by_cases hp : (arena.getD i default).variant = VKind.llm
    · rw [if_pos (by simpa using hp)] at hf
      have hx : i = x ∧ l.filter (fun i => decide ((arena.getD i default).variant = VKind.llm))
          = [] := by
        constructor
        · exact (List.cons_eq_cons.mp hf).1
        · exact (List.cons_eq_cons.mp hf).2
      rw [List.foldl_cons, if_pos hp, llmFold_of_filter_nil arena l _ hx.2]
      rw [hx.1]
    · rw [if_neg (by simpa using hp)] at hf
      rw [List.foldl_cons, if_neg hp]
      exact ih acc x hf

theorem findLlmNode_none {arena : List BVertex} {nodesL : List Nat}
    (h : nodesL.filter (fun i => decide ((arena.getD i default).variant = VKind.llm)) = []) :
    findLlmNode arena nodesL = none :=
  llmFold_of_filter_nil arena nodesL none h

theorem findLlmNode_single {arena : List BVertex} {nodesL : List Nat} {x : Nat}
    (h : nodesL.filter (fun i => decide ((arena.getD i default).variant = VKind.llm)) = [x]) :
    findLlmNode arena nodesL = some x :=
  llmFold_of_filter_singleton arena nodesL none x h

/-! ### Claim C1: LLM injection into toolkit vertices -/

/-- Counterexample to claim C1 as stated: with zero LLM-variant vertices
in the graph (here a single toolkit vertex), the injection loop still
executes `node.params["llm"] = llm_node` with `llm_node = None`, so the
toolkit vertex DOES get an "llm" entry in its params mapping — it is
set to `None` (modelled `some none`: key present, value `None`) rather
than being left unset as the claim requires. -/
theorem c1_counterexample :
    findLlmNode [⟨"t", VKind.toolkit, []⟩] [0] = none
    ∧ paramLookup ((injectLlm [⟨"t", VKind.toolkit, []⟩] [0]).getD 0 default).params "llm"
        = some none :=
  ⟨rfl, rfl⟩

/-- Claim C1 as amended: after the build pass, if exactly one
LLM-variant vertex exists (index `x`, and in general the last one
encountered wins), every Toolkit-variant vertex has `params["llm"]`
identical to that LLM vertex; and if zero LLM-variant vertices exist,
every Toolkit-variant vertex has its "llm" entry set to `None` (the key
is present and holds no vertex).  `nodesL` lists distinct in-range
arena indices, as `self.nodes` holds distinct vertex objects. -/
theorem c1_llm_injection (arena : List BVertex) (nodesL : List Nat)
    (hnd : nodesL.Nodup) (hval : ∀ i ∈ nodesL, i < arena.length) :
    (∀ x, nodesL.filter (fun i => decide ((arena.getD i default).variant = VKind.llm)) = [x] →
      ∀ j ∈ nodesL, (arena.getD j default).variant = VKind.toolkit →
        paramLookup ((injectLlm arena nodesL).getD j default).params "llm" = some (some x))
    ∧ (nodesL.filter (fun i => decide ((arena.getD i default).variant = VKind.llm)) = [] →
      ∀ j ∈ nodesL, (arena.getD j default).variant = VKind.toolkit →
        paramLookup ((injectLlm arena nodesL).getD j default).params "llm" = some none) := by
  constructor
  · intro x hfilter j hj htk
    unfold injectLlm
    rw [findLlmNode_single hfilter]
    rw [injectFold_getD (some x) nodesL arena j hnd hval]
    rw [if_pos ⟨hj, htk⟩]
    exact paramLookup_setParam _ _ _
  · intro hfilter j hj htk
    unfold injectLlm
    rw [findLlmNode_none hfilter]
    rw [injectFold_getD none nodesL arena j hnd hval]
    rw [if_pos ⟨hj, htk⟩]
    exact paramLookup_setParam _ _ _

/-- Witness for C1 (amended): a graph with one LLM vertex at index 0
and one toolkit vertex at index 1 ends with `params["llm"]` referring
to index 0; a graph with a single toolkit vertex and no LLM ends with
the entry present and holding `None`. -/
theorem c1_witness :
    (([0, 1] : List Nat).Nodup
     ∧ [0, 1].filter
         (fun i => decide ((([⟨"l", VKind.llm, []⟩, ⟨"t", VKind.toolkit, []⟩] :
           List BVertex).getD i default).variant = VKind.llm)) = [0]
     ∧ paramLookup ((injectLlm [⟨"l", VKind.llm, []⟩, ⟨"t", VKind.toolkit, []⟩]
         [0, 1]).getD 1 default).params "llm" = some (some 0))
    ∧ paramLookup ((injectLlm [⟨"t2", VKind.toolkit, []⟩] [0]).getD 0 default).params "llm"
        = some none := by
  refine ⟨⟨by decide, by decide, ?_⟩, ?_⟩
  · exact (c1_llm_injection [⟨"l", VKind.llm, []⟩, ⟨"t", VKind.toolkit, []⟩] [0, 1]
      (by decide) (by decide)).1 0 (by decide) 1 (by decide) (by decide)
  · exact (c1_llm_injection [⟨"t2", VKind.toolkit, []⟩] [0]
      (by decide) (by decide)).2 (by decide) 0 (by decide) (by decide)

/-! ### Lemmas about neighbor counting -/

/-- Number of parallel edges between `u` and `v` (either direction) in
the edge sequence. -/
def countBetween (es : List (Nat × Nat)) (u v : Nat) : Nat :=
  (es.filter (fun e => decide ((e.1 = u ∧ e.2 = v) ∨ (e.1 = v ∧ e.2 = u)))).length

theorem countBetween_comm (es : List (Nat × Nat)) (u v : Nat) :
    countBetween es u v = countBetween es v u := by
  unfold countBetween
  congr 1
  apply List.filter_congr
  intro e _
  simp only [decide_eq_decide]
  tauto

theorem nbMapIncr_lookup (w x : Nat) (nb : List (Nat × Nat)) :
    nbLookup (nb.map (fun p => if p.1 == w then (p.1, p.2 + 1) else p)) x =
      if x = w then (nbLookup nb w).map (fun k => k + 1) else nbLookup nb x := by
  induction nb with
  | nil => by_cases h : x = w <;> simp [nbLookup, h]
  | cons p nb ih =>
    obtain ⟨a, b⟩ := p
    by_cases hx : x = w
    · subst hx
      rw [if_pos rfl] at ih ⊢
      by_cases hpa : a = x
      · unfold nbLookup
        rw [List.map_cons, if_pos (by simpa using hpa)]
        rw [List.find?_cons_of_pos _ (by simpa using hpa),
            List.find?_cons_of_pos _ (by simpa using hpa)]
        simp
      · unfold nbLookup
        rw [List.map_cons, if_neg (by simpa using hpa)]
        rw [List.find?_cons_of_neg _ (by simpa using hpa),
            List.find?_cons_of_neg _ (by simpa using hpa)]
        exact ih
    · rw [if_neg hx] at ih ⊢
      by_cases hpa : a = w
      · have hax : ¬(a = x) := by rw [hpa]; exact fun h => hx h.symm
        unfold nbLookup
        rw [List.map_cons, if_pos (by simpa using hpa)]
        rw [List.find?_cons_of_neg _ (by simpa using hax),
            List.find?_cons_of_neg _ (by simpa using hax)]
        exact ih
      · by_cases hax : a = x
        · unfold nbLookup
          rw [List.map_cons, if_neg (by simpa using hpa)]
          rw [List.find?_cons_of_pos _ (by simpa using hax),
              List.find?_cons_of_pos _ (by simpa using hax)]
        · unfold nbLookup
          rw [List.map_cons, if_neg (by simpa using hpa)]
          rw [List.find?_cons_of_neg _ (by simpa using hax),
              List.find?_cons_of_neg _ (by simpa using hax)]
          exact ih

theorem nbIncr_lookup (nb : List (Nat × Nat)) (w x : Nat) :
    nbLookup (nbIncr nb w) x =
      if x = w then some ((nbLookup nb w).getD 0 + 1) else nbLookup nb x := by
  unfold nbIncr
  by_cases hany : nb.any (fun p => p.1 == w) = true
  · rw [if_pos hany, nbMapIncr_lookup]
    by_cases hx : x = w
    · rw [if_pos hx, if_pos hx]
      obtain ⟨p, hmem, hpred⟩ := List.any_eq_true.mp hany
      have hsome : (nb.find? (fun p => p.1 == w)).isSome := by
        rw [List.find?_isSome]
        exact ⟨p, hmem, hpred⟩
      obtain ⟨q, hq⟩ := Option.isSome_iff_exists.mp hsome
      unfold nbLookup
      rw [hq]
      simp
    · rw [if_neg hx, if_neg hx]
  · rw [if_neg hany]
    have hnone : nb.find? (fun p => p.1 == w) = none := by
      rw [List.find?_eq_none]
      intro p hp
      have := List.any_eq_false.mp (Bool.not_eq_true _ ▸ hany) p hp
      simp [this]
    by_cases hx : x = w
    · subst hx
      unfold nbLookup
      rw [List.find?_append, hnone]
      simp
    · unfold nbLookup
      rw [List.find?_append]
      have h2 : List.find? (fun p => p.1 == x) [(w, 1)] = none := by
        rw [List.find?_cons_of_neg _ (by simpa using fun h => hx h.symm)]
        rfl
      rw [h2, if_neg hx]
      cases nb.find? (fun p => p.1 == x) <;> rfl

theorem nbFold_lookup (v : Nat) (es : List (Nat × Nat)) :
    ∀ (nb : List (Nat × Nat)) (x : Nat), x ≠ v →
    nbLookup (es.foldl (nbStep v) nb) x =
      if (nbLookup nb x).isSome = true ∨ countBetween es v x ≠ 0 then
        some ((nbLookup nb x).getD 0 + countBetween es v x)
      else none := by
  induction es with
  | nil =>
    intro nb x _
    cases h : nbLookup nb x <;> simp [countBetween, h]
  | cons e es ih =>
    intro nb x hxv
    rw [List.foldl_cons]
    have hcount : countBetween (e :: es) v x =
        (if (e.1 = v ∧ e.2 = x) ∨ (e.1 = x ∧ e.2 = v) then 1 else 0) + countBetween es v x := by
      unfold countBetween
      rw [List.filter_cons]
      by_cases hc : (e.1 = v ∧ e.2 = x) ∨ (e.1 = x ∧ e.2 = v)
      · simp [hc]
        omega
      · simp [hc]
    by_cases hc : (e.1 = v ∧ e.2 = x) ∨ (e.1 = x ∧ e.2 = v)
    · have hstep : nbLookup (nbStep v nb e) x = some ((nbLookup nb x).getD 0 + 1) := by
        unfold nbStep
        rcases hc with ⟨h1, h2⟩ | ⟨h1, h2⟩
        · rw [if_pos h1, nbIncr_lookup, if_pos h2.symm, h2]
        · have hne : ¬(e.1 = v) := by rw [h1]; exact hxv
          rw [if_neg hne, if_pos h2, nbIncr_lookup, if_pos h1.symm, h1]
      rw [ih (nbStep v nb e) x hxv, hstep, hcount, if_pos hc]
      rw [if_pos (Or.inl (by simp))]
      simp
      omega
    · have hstep : nbLookup (nbStep v nb e) x = nbLookup nb x := by
        unfold nbStep
        by_cases h1 : e.1 = v
        · have h2 : ¬(e.2 = x) := fun h => hc (Or.inl ⟨h1, h⟩)
          rw [if_pos h1, nbIncr_lookup, if_neg (fun h => h2 h.symm)]
        · by_cases h2 : e.2 = v
          · have h3 : ¬(e.1 = x) := fun h => hc (Or.inr ⟨h, h2⟩)
            rw [if_neg h1, if_pos h2, nbIncr_lookup, if_neg (fun h => h3 h.symm)]
          · rw [if_neg h1, if_neg h2]
      rw [ih (nbStep v nb e) x hxv, hstep, hcount, if_neg hc]
      simp

/-! ### Claim C8: neighbor multiplicity -/

/-- Claim C8: for distinct vertices `u` and `v` joined by `k` parallel
edges (counting both directions) in the edge sequence,
`get_node_neighbors(u)` maps `v` to `k` and `get_node_neighbors(v)`
maps `u` to `k`; a vertex sharing no edge with `u` does not appear in
`get_node_neighbors(u)` at all. -/
theorem c8_neighbor_multiplicity (es : List (Nat × Nat)) (u v : Nat) (hne : u ≠ v) :
    (countBetween es u v ≠ 0 →
      nbLookup (getNodeNeighbors es u) v = some (countBetween es u v)
      ∧ nbLookup (getNodeNeighbors es v) u = some (countBetween es u v))
    ∧ (countBetween es u v = 0 → nbLookup (getNodeNeighbors es u) v = none) := by
  have hbase : nbLookup [] v = none := rfl
  have hbase2 : nbLookup [] u = none := rfl
  constructor
  · intro hk
    constructor
    · unfold getNodeNeighbors
      rw [nbFold_lookup u es [] v (fun h => hne h.symm)]
      rw [if_pos (Or.inr hk)]
      rw [hbase]
      simp
    · unfold getNodeNeighbors
      rw [nbFold_lookup v es [] u hne]
      rw [if_pos (Or.inr (by rw [countBetween_comm]; exact hk))]
      rw [hbase2, countBetween_comm es v u]
      simp
  · intro hk
    unfold getNodeNeighbors
    rw [nbFold_lookup u es [] v (fun h => hne h.symm)]
    rw [if_neg (by rw [hbase]; simp [hk])]

/-- Witness for C8: vertices 0 and 1 joined by three parallel edges
(two as (0,1), one as (1,0)) get multiplicity 3 in each other's
neighbor map, and vertex 5, sharing no edge with 0, does not appear. -/
theorem c8_witness :
    (0 : Nat) ≠ 1
    ∧ countBetween [(0, 1), (1, 0), (0, 1), (0, 2)] 0 1 = 3
    ∧ nbLookup (getNodeNeighbors [(0, 1), (1, 0), (0, 1), (0, 2)] 0) 1 = some 3
    ∧ nbLookup (getNodeNeighbors [(0, 1), (1, 0), (0, 1), (0, 2)] 1) 0 = some 3
    ∧ nbLookup (getNodeNeighbors [(0, 1), (1, 0), (0, 1), (0, 2)] 0) 5 = none := by
  have h3 : countBetween [(0, 1), (1, 0), (0, 1), (0, 2)] 0 1 = 3 := by decide
  have hmain := (c8_neighbor_multiplicity [(0, 1), (1, 0), (0, 1), (0, 2)] 0 1
    (by decide)).1 (by decide)
  have hnone := (c8_neighbor_multiplicity [(0, 1), (1, 0), (0, 1), (0, 2)] 0 5
    (by decide)).2 (by decide)
  refine ⟨by decide, h3, ?_, ?_, hnone⟩
  · rw [hmain.1, h3]
  · rw [hmain.2, h3]

/-! ### Termination of the DFS loop -/

theorem filter_not_mem_length (B : List (Nat × Nat)) :
    B.Nodup → ∀ (A : List (Nat × Nat)), A.Nodup → (∀ b ∈ B, b ∈ A) →
    (A.filter (fun e => decide (e ∉ B))).length + B.length = A.length := by
  induction B with
  | nil =>
    intro _ A _ _
    simp
  | cons b B ih =>
    intro hBnd A hAnd hsub
    have hbB : b ∉ B := (List.nodup_cons.mp hBnd).1
    have hBnd2 : B.Nodup := (List.nodup_cons.mp hBnd).2
    have hCnd : (A.filter (fun e => decide (e ∉ B))).Nodup := hAnd.filter _
    have hbC : b ∈ A.filter (fun e => decide (e ∉ B)) := by
      rw [List.mem_filter]
      exact ⟨hsub b (by simp), by simpa using hbB⟩
    have key1 : A.filter (fun e => decide (e ∉ b :: B))
        = (A.filter (fun e => decide (e ∉ B))).filter (fun e => e != b) := by
      rw [List.filter_filter]
      apply List.filter_congr
      intro x _
      simp only [List.mem_cons, not_or, Bool.decide_and, decide_not, bne, Bool.and_comm]
      cases hxb : decide (x = b) with
      | true =>
        have hx : x = b := of_decide_eq_true hxb
        simp [hx]
      | false =>
        have hx : ¬(x = b) := of_decide_eq_false hxb
        simp [hx, beq_eq_false_iff_ne]
    have key2 : (A.filter (fun e => decide (e ∉ B))).filter (fun e => e != b)
        = (A.filter (fun e => decide (e ∉ B))).erase b := by
      rw [hCnd.erase_eq_filter b]
    have hlenC : ((A.filter (fun e => decide (e ∉ B))).erase b).length
        = (A.filter (fun e => decide (e ∉ B))).length - 1 := List.length_erase_of_mem hbC
    have hpos : 1 ≤ (A.filter (fun e => decide (e ∉ B))).length :=
      List.length_pos.mpr (List.ne_nil_of_mem hbC)
    have hIH := ih hBnd2 A hAnd (fun x hx => hsub x (List.mem_cons_of_mem _ hx))
    rw [key1, key2, hlenC]
    simp only [List.length_cons]
    omega

/-- Count of the distinct edges of the graph not yet in the visited-edge
set. -/
def unvisitedCount (g : TGraph) (vE : List (Nat × Nat)) : Nat :=
  (g.edges.dedup.filter (fun e => decide (e ∉ vE))).length

/-- Loop measure: stack height plus unvisited distinct edges.  Every
iteration of the DFS loop strictly decreases it. -/
def dfsMeasure (g : TGraph) (s : DfsState) : Nat :=
  s.stack.length + unvisitedCount g s.visitedE

theorem mem_nodeEdges {g : TGraph} {v : Nat} {e : Nat × Nat} :
    e ∈ nodeEdges g v ↔ e ∈ g.edges ∧ (e.1 = v ∨ e.2 = v) := by
  unfold nodeEdges
  rw [List.mem_dedup, List.mem_filter]
  simp

theorem nodeEdges_nodup (g : TGraph) (v : Nat) : (nodeEdges g v).Nodup :=
  List.nodup_dedup _

theorem unvisited_after_visit (g : TGraph) (node : Nat) (vE : List (Nat × Nat)) :
    unvisitedCount g (((nodeEdges g node).filter (fun e => e ∉ vE)) ++ vE)
      + ((nodeEdges g node).filter (fun e => e ∉ vE)).length
      = unvisitedCount g vE := by
  have hnewnd : ((nodeEdges g node).filter (fun e => e ∉ vE)).Nodup :=
    (nodeEdges_nodup g node).filter _
  have hUnd : (g.edges.dedup.filter (fun e => decide (e ∉ vE))).Nodup :=
    (List.nodup_dedup _).filter _
  have hsub : ∀ b ∈ (nodeEdges g node).filter (fun e => e ∉ vE),
      b ∈ g.edges.dedup.filter (fun e => decide (e ∉ vE)) := by
    intro b hb
    rw [List.mem_filter] at hb ⊢
    refine ⟨List.mem_dedup.mpr (mem_nodeEdges.mp hb.1).1, hb.2⟩
  have hsplit : unvisitedCount g (((nodeEdges g node).filter (fun e => e ∉ vE)) ++ vE)
      = ((g.edges.dedup.filter (fun e => decide (e ∉ vE))).filter
          (fun e => decide (e ∉ (nodeEdges g node).filter (fun e2 => e2 ∉ vE)))).length := by
    unfold unvisitedCount
    rw [List.filter_filter]
    congr 1
    apply List.filter_congr
    intro x _
    simp [List.mem_append, not_or, Bool.and_comm]
  rw [hsplit]
  exact filter_not_mem_length _ hnewnd _ hUnd hsub

theorem dfsRun_drains (g : TGraph) :
    ∀ (fuel : Nat) (s : DfsState), dfsMeasure g s ≤ fuel → (dfsRun g fuel s).stack = [] := by
  intro fuel
  induction fuel with
  | zero =>
    intro s h
    unfold dfsMeasure at h
    have : s.stack.length = 0 := by omega
    have hnil : s.stack = [] := List.length_eq_zero.mp this
    rw [show dfsRun g 0 s = s from rfl]
    exact hnil
  | succ n ih =>
    intro s h
    obtain ⟨stack, vN, vE⟩ := s
    cases stack with
    | nil => rw [dfsRun_nil_stack rfl]
    | cons node rest =>
      by_cases hmem : node ∈ vN
      · rw [dfsRun_skip hmem]
        apply ih
        unfold dfsMeasure at h ⊢
        dsimp only at h ⊢
        simp only [List.length_cons] at h
        omega
      · rw [dfsRun_visit hmem]
        apply ih
        have hafter := unvisited_after_visit g node vE
        unfold dfsMeasure at h ⊢
        dsimp only at h ⊢
        simp only [List.length_cons, List.length_append, List.length_reverse,
          List.length_map] at h ⊢
        omega

theorem dfsRun_add (g : TGraph) :
    ∀ (a b : Nat) (s : DfsState), dfsRun g (a + b) s = dfsRun g b (dfsRun g a s) := by
  intro a
  induction a with
  | zero => intro b s; rw [Nat.zero_add]; rfl
  | succ n ih =>
    intro b s
    obtain ⟨stack, vN, vE⟩ := s
    cases stack with
    | nil =>
      rw [dfsRun_nil_stack rfl, dfsRun_nil_stack rfl, dfsRun_nil_stack rfl]
    | cons node rest =>
      have hshift : n + 1 + b = (n + b) + 1 := by omega
      by_cases hmem : node ∈ vN
      · rw [hshift, dfsRun_skip hmem, dfsRun_skip hmem, ih]
      · rw [hshift, dfsRun_visit hmem, dfsRun_visit hmem, ih]

theorem dfsMeasure_init_le (g : TGraph) (root : Nat) :
    dfsMeasure g ⟨[root], [], []⟩ ≤ dfsFuel g := by
  unfold dfsMeasure dfsFuel unvisitedCount
  have : (g.edges.dedup.filter (fun e => decide (e ∉ ([] : List (Nat × Nat))))).length
      ≤ g.edges.dedup.length := List.length_filter_le _ _
  simp only [List.length_cons, List.length_nil]
  omega

/-! ### Claim C10: termination of traverse_graph -/

/-- Claim C10: `traverse_graph` terminates on every finite input graph,
including graphs whose edge relation has cycles or self-loops: the
visited-edge set lets each distinct edge be marked at most once, so the
stack receives at most one push per distinct edge and drains within
`dfsFuel g` iterations of the loop (first conjunct); running the loop
any longer changes nothing (second conjunct), so the fuel-indexed
embedding computes the loop's true fixed point. -/
theorem c10_traverse_terminates (g : TGraph) (root : Nat) (extra : Nat) :
    (dfsRun g (dfsFuel g) ⟨[root], [], []⟩).stack = []
    ∧ dfsRun g (dfsFuel g + extra) ⟨[root], [], []⟩ = dfsRun g (dfsFuel g) ⟨[root], [], []⟩ := by
  have hdrain : (dfsRun g (dfsFuel g) ⟨[root], [], []⟩).stack = [] :=
    dfsRun_drains g (dfsFuel g) ⟨[root], [], []⟩ (dfsMeasure_init_le g root)
  refine ⟨hdrain, ?_⟩
  rw [dfsRun_add g (dfsFuel g) extra ⟨[root], [], []⟩]
  exact dfsRun_nil_stack hdrain extra

/-! ### Closure invariant of the DFS loop -/

/-- Invariant of the `traverse_graph` loop: visited and stacked nodes
are reachable; visited edges are graph edges touching a visited node;
a visited node has all its incident edges visited; a visited edge has
both endpoints visited or stacked; the root is visited or stacked. -/
def DfsInv (g : TGraph) (root : Nat) (s : DfsState) : Prop :=
  (∀ v ∈ s.visitedN, Reachable g root v)
  ∧ (∀ v ∈ s.stack, Reachable g root v)
  ∧ (∀ e ∈ s.visitedE, e ∈ g.edges ∧ ∃ v ∈ s.visitedN, e.1 = v ∨ e.2 = v)
  ∧ (∀ v ∈ s.visitedN, ∀ e ∈ nodeEdges g v, e ∈ s.visitedE)
  ∧ (∀ e ∈ s.visitedE, (e.1 ∈ s.visitedN ∨ e.1 ∈ s.stack) ∧ (e.2 ∈ s.visitedN ∨ e.2 ∈ s.stack))
  ∧ (root ∈ s.visitedN ∨ root ∈ s.stack)

theorem dfsInv_skip {g : TGraph} {root node : Nat} {rest vN : List Nat} {vE : List (Nat × Nat)}
    (hmem : node ∈ vN) (hInv : DfsInv g root ⟨node :: rest, vN, vE⟩) :
    DfsInv g root ⟨rest, vN, vE⟩ := by
  obtain ⟨I1, I2, I3, I4, I5, I6⟩ := hInv
  refine ⟨I1, ?_, I3, I4, ?_, ?_⟩
  · intro v hv
    exact I2 v (List.mem_cons_of_mem _ hv)
  · intro e he
    obtain ⟨hE1, hE2⟩ := I5 e he
    constructor
    · rcases hE1 with h | h
      · exact Or.inl h
      · rcases List.mem_cons.mp h with h | h
        · exact Or.inl (h ▸ hmem)
        · exact Or.inr h
    · rcases hE2 with h | h
      · exact Or.inl h
      · rcases List.mem_cons.mp h with h | h
        · exact Or.inl (h ▸ hmem)
        · exact Or.inr h
  · rcases I6 with h | h
    · exact Or.inl h
    · rcases List.mem_cons.mp h with h | h
      · exact Or.inl (h ▸ hmem)
      · exact Or.inr h

theorem dfsInv_visit {g : TGraph} {root node : Nat} {rest vN : List Nat} {vE : List (Nat × Nat)}
    (hInv : DfsInv g root ⟨node :: rest, vN, vE⟩) :
    DfsInv g root
      ⟨(((nodeEdges g node).filter (fun e => e ∉ vE)).map (pushTarget node)).reverse ++ rest,
       node :: vN,
       ((nodeEdges g node).filter (fun e => e ∉ vE)) ++ vE⟩ := by
  obtain ⟨I1, I2, I3, I4, I5, I6⟩ := hInv
  have hnodeReach : Reachable g root node := I2 node (by simp)
  refine ⟨?_, ?_, ?_, ?_, ?_, ?_⟩
  · intro v hv
    rcases List.mem_cons.mp hv with rfl | hv
    · exact hnodeReach
    · exact I1 v hv
  · intro v hv
    rcases List.mem_append.mp hv with hv | hv
    · rw [List.mem_reverse] at hv
      obtain ⟨e, he, rfl⟩ := List.mem_map.mp hv
      obtain ⟨heg, hinc⟩ := mem_nodeEdges.mp (List.mem_filter.mp he).1
      unfold pushTarget
      by_cases h1 : e.1 = node
      · rw [if_neg (by simp [h1])]
        apply Reachable.fwd hnodeReach
        have heq : (node, e.2) = e := by rw [← h1]
        rw [heq]
        exact heg
      · rw [if_pos h1]
        have h2 : e.2 = node := hinc.resolve_left h1
        apply Reachable.bwd hnodeReach
        have heq : (e.1, node) = e := by rw [← h2]
        rw [heq]
        exact heg
    · exact I2 v (List.mem_cons_of_mem _ hv)
  · intro e he
    rcases List.mem_append.mp he with he | he
    · obtain ⟨heg, hinc⟩ := mem_nodeEdges.mp (List.mem_filter.mp he).1
      exact ⟨heg, node, by simp, hinc⟩
    · obtain ⟨heg, v, hv, hvi⟩ := I3 e he
      exact ⟨heg, v, List.mem_cons_of_mem _ hv, hvi⟩
  · intro v hv e he
    rcases List.mem_cons.mp hv with rfl | hv
    · by_cases hvis : e ∈ vE
      · exact List.mem_append.mpr (Or.inr hvis)
      · exact List.mem_append.mpr (Or.inl (List.mem_filter.mpr ⟨he, by simpa using hvis⟩))
    · exact List.mem_append.mpr (Or.inr (I4 v hv e he))
  · intro e he
    rcases List.mem_append.mp he with he | he
    · obtain ⟨heg, hinc⟩ := mem_nodeEdges.mp (List.mem_filter.mp he).1
      have hpushmem : pushTarget node e ∈
          (((nodeEdges g node).filter (fun e => e ∉ vE)).map (pushTarget node)).reverse ++ rest := by
        apply List.mem_append.mpr
        left
        rw [List.mem_reverse]
        exact List.mem_map.mpr ⟨e, he, rfl⟩
      by_cases h1 : e.1 = node
      · constructor
        · left
          rw [h1]
          simp
        · right
          have hpt : pushTarget node e = e.2 := by
            unfold pushTarget
            rw [if_neg (by simp [h1])]
          rw [← hpt]
          exact hpushmem
      · have h2 : e.2 = node := hinc.resolve_left h1
        constructor
        · right
          have hpt : pushTarget node e = e.1 := by
            unfold pushTarget
            rw [if_pos h1]
          rw [← hpt]
          exact hpushmem
        · left
          rw [h2]
          simp
    · obtain ⟨hE1, hE2⟩ := I5 e he
      constructor
      · rcases hE1 with h | h
        · exact Or.inl (List.mem_cons_of_mem _ h)
        · rcases List.mem_cons.mp h with h | h
          · left
            rw [h]
            simp
          · exact Or.inr (List.mem_append.mpr (Or.inr h))
      · rcases hE2 with h | h
        · exact Or.inl (List.mem_cons_of_mem _ h)
        · rcases List.mem_cons.mp h with h | h
          · left
            rw [h]
            simp
          · exact Or.inr (List.mem_append.mpr (Or.inr h))
  · rcases I6 with h | h
    · exact Or.inl (List.mem_cons_of_mem _ h)
    · rcases List.mem_cons.mp h with h | h
      · left
        rw [h]
        simp
      · exact Or.inr (List.mem_append.mpr (Or.inr h))

theorem dfsRun_inv (g : TGraph) (root : Nat) :
    ∀ (fuel : Nat) (s : DfsState), DfsInv g root s → DfsInv g root (dfsRun g fuel s) := by
  intro fuel
  induction fuel with
  | zero => intro s h; exact h
  | succ n ih =>
    intro s h
    obtain ⟨stack, vN, vE⟩ := s
    cases stack with
    | nil => rw [dfsRun_nil_stack rfl]; exact h
    | cons node rest =>
      by_cases hmem : node ∈ vN
      · rw [dfsRun_skip hmem]
        exact ih _ (dfsInv_skip hmem h)
      · rw [dfsRun_visit hmem]
        exact ih _ (dfsInv_visit h)

theorem dfsInv_init (g : TGraph) (root : Nat) : DfsInv g root ⟨[root], [], []⟩ := by
  refine ⟨by simp, ?_, by simp, by simp, by simp, Or.inr (by simp)⟩
  intro v hv
  have : v = root := by simpa using hv
  rw [this]
  exact Reachable.refl

theorem traverse_closure (g : TGraph) (root : Nat) :
    (∀ v, v ∈ (traverseGraph g root).1 ↔ Reachable g root v)
    ∧ (∀ e, e ∈ (traverseGraph g root).2 ↔
        (e ∈ g.edges ∧ ∃ v, (e.1 = v ∨ e.2 = v) ∧ Reachable g root v)) := by
  have hstack : (dfsRun g (dfsFuel g) ⟨[root], [], []⟩).stack = [] :=
    dfsRun_drains g (dfsFuel g) ⟨[root], [], []⟩ (dfsMeasure_init_le g root)
  have hInv : DfsInv g root (dfsRun g (dfsFuel g) ⟨[root], [], []⟩) :=
    dfsRun_inv g root (dfsFuel g) ⟨[root], [], []⟩ (dfsInv_init g root)
  obtain ⟨I1, I2, I3, I4, I5, I6⟩ := hInv
  have hrootN : root ∈ (dfsRun g (dfsFuel g) ⟨[root], [], []⟩).visitedN := by
    rcases I6 with h | h
    · exact h
    · rw [hstack] at h
      simp at h
  have hreach_to_mem : ∀ v, Reachable g root v →
      v ∈ (dfsRun g (dfsFuel g) ⟨[root], [], []⟩).visitedN := by
    intro v hv
    induction hv with
    | refl => exact hrootN
    | fwd hu he ih =>
      rename_i u v2
      have hedge : (u, v2) ∈ nodeEdges g u := mem_nodeEdges.mpr ⟨he, Or.inl rfl⟩
      have hvE := I4 u ih _ hedge
      have h2 := (I5 _ hvE).2
      rw [hstack] at h2
      simpa using h2
    | bwd hu he ih =>
      rename_i u v2
      have hedge : (v2, u) ∈ nodeEdges g u := mem_nodeEdges.mpr ⟨he, Or.inr rfl⟩
      have hvE := I4 u ih _ hedge
      have h1 := (I5 _ hvE).1
      rw [hstack] at h1
      simpa using h1
  constructor
  · intro v
    exact ⟨I1 v, hreach_to_mem v⟩
  · intro e
    constructor
    · intro he
      obtain ⟨heg, v, hv, hvi⟩ := I3 e he
      exact ⟨heg, v, hvi, I1 v hv⟩
    · rintro ⟨heg, v, hvi, hreach⟩
      exact I4 v (hreach_to_mem v hreach) e (mem_nodeEdges.mpr ⟨heg, hvi⟩)

/-! ### Claim C7: traversal closure through from_root_node -/

/-- Counterexample to claim C7 as stated: for an isolated root (a
vertex with no incident edges — here vertex 0 in a graph with no
edges), the connectivity closure is the non-empty set containing the
root itself, yet `from_root_node` hands the constructor an empty edge
list, the `elif nodes and edges` branch does not run, and the returned
graph has NO vertex or edge attributes at all — so its vertex set does
not equal the closure (any attribute access raises
`AttributeError`). -/
theorem c7_counterexample :
    (fromRootNode ⟨[]⟩ 0).attrs = none ∧ Reachable ⟨[]⟩ 0 0 :=
  ⟨rfl, Reachable.refl⟩

/-- Claim C7 as amended: for every root vertex with at least one
incident edge, `from_root_node(root)` yields a graph whose vertex and
edge attributes are set to exactly the traversal result, whose vertex
set is exactly the set of vertices reachable from the root by following
incident edges in either direction, and whose edge set is exactly the
set of graph edges incident to some reachable vertex.  (For an isolated
root the constructor leaves the attributes unset; see the
counterexample.) -/
theorem c7_traversal_closure (g : TGraph) (root : Nat) (h : nodeEdges g root ≠ []) :
    (fromRootNode g root).attrs = some (traverseGraph g root)
    ∧ (∀ v, v ∈ (traverseGraph g root).1 ↔ Reachable g root v)
    ∧ (∀ e, e ∈ (traverseGraph g root).2 ↔
        (e ∈ g.edges ∧ ∃ v, (e.1 = v ∨ e.2 = v) ∧ Reachable g root v)) := by
  obtain ⟨hnodes, hedges⟩ := traverse_closure g root
  have hrootmem : root ∈ (traverseGraph g root).1 := (hnodes root).mpr Reachable.refl
  obtain ⟨e, he⟩ := List.exists_mem_of_ne_nil _ h
  obtain ⟨heg, hinc⟩ := mem_nodeEdges.mp he
  have hemem : e ∈ (traverseGraph g root).2 :=
    (hedges e).mpr ⟨heg, root, hinc, Reachable.refl⟩
  have hns : ¬(traverseGraph g root).1.isEmpty := by
    rw [List.isEmpty_iff]
    exact List.ne_nil_of_mem hrootmem
  have hes : ¬(traverseGraph g root).2.isEmpty := by
    rw [List.isEmpty_iff]
    exact List.ne_nil_of_mem hemem
  refine ⟨?_, hnodes, hedges⟩
  unfold fromRootNode graphFromParts
  rw [if_pos (by
    rw [Bool.and_eq_true]
    exact ⟨by simpa using hns, by simpa using hes⟩)]

/-- Witness for C7 (amended) at the one-edge graph 0 → 1 with root 0. -/
theorem c7_witness :
    nodeEdges ⟨[(0, 1)]⟩ 0 ≠ []
    ∧ ((fromRootNode ⟨[(0, 1)]⟩ 0).attrs = some (traverseGraph ⟨[(0, 1)]⟩ 0)
      ∧ (∀ v, v ∈ (traverseGraph ⟨[(0, 1)]⟩ 0).1 ↔ Reachable ⟨[(0, 1)]⟩ 0 v)
      ∧ (∀ e, e ∈ (traverseGraph ⟨[(0, 1)]⟩ 0).2 ↔
          (e ∈ TGraph.edges ⟨[(0, 1)]⟩ ∧ ∃ v, (e.1 = v ∨ e.2 = v) ∧ Reachable ⟨[(0, 1)]⟩ 0 v))) :=
  ⟨by decide, c7_traversal_closure ⟨[(0, 1)]⟩ 0 (by decide)⟩

/-! ### Lemmas about the construction pipeline (for flow inlining) -/

theorem getD_append_left {l1 l2 : List BVertex} {i : Nat} (h : i < l1.length) :
    (l1 ++ l2).getD i default = l1.getD i default := by
  simp [List.getD, List.getElem?_append, h]

theorem getD_append_right {l1 l2 : List BVertex} {i : Nat} (h : l1.length ≤ i) :
    (l1 ++ l2).getD i default = l2.getD (i - l1.length) default := by
  simp [List.getD, List.getElem?_append, Nat.not_lt.mpr h]

theorem injectLlm_length (arena : List BVertex) (nodesL : List Nat) :
    (injectLlm arena nodesL).length = arena.length := by
  unfold injectLlm
  generalize findLlmNode arena nodesL = v
  induction nodesL generalizing arena with
  | nil => rfl
  | cons i l ih =>
    rw [List.foldl_cons, ih (injectStep v arena i)]
    exact injectStep_length v arena i

theorem injectStep_vid (v : Option Nat) (ar : List BVertex) (i j : Nat) :
    ((injectStep v ar i).getD j default).vid = (ar.getD j default).vid := by
  unfold injectStep
  by_cases ht : (ar.getD i default).variant = VKind.toolkit
  · rw [if_pos ht]
    by_cases hij : i = j
    · subst hij
      by_cases hlen : i < ar.length
      · simp [List.getD, List.getElem?_set_self, hlen]
      · rw [List.set_eq_of_length_le (Nat.le_of_not_lt hlen)]
    · simp [List.getD, List.getElem?_set_ne hij]
  · rw [if_neg ht]

theorem injectLlm_vid (arena : List BVertex) (nodesL : List Nat) (j : Nat) :
    ((injectLlm arena nodesL).getD j default).vid = (arena.getD j default).vid := by
  unfold injectLlm
  generalize findLlmNode arena nodesL = v
  induction nodesL generalizing arena with
  | nil => rfl
  | cons i l ih =>
    rw [List.foldl_cons, ih (injectStep v arena i)]
    exact injectStep_vid v arena i j

theorem pruneNodes_subset {nodesL : List Nat} {edges : List (Nat × Nat)} {i : Nat}
    (h : i ∈ pruneNodes nodesL edges) : i ∈ nodesL :=
  (List.mem_filter.mp h).1

theorem pruneNodes_keep_endpoint {nodesL : List Nat} {edges : List (Nat × Nat)} {i : Nat}
    (hi : i ∈ nodesL) (hinc : ∃ e ∈ edges, e.1 = i ∨ e.2 = i) :
    i ∈ pruneNodes nodesL edges := by
  rw [pruneNodes, List.mem_filter]
  refine ⟨hi, ?_⟩
  rw [Bool.or_eq_true]
  left
  rw [validateNode, List.any_eq_true]
  obtain ⟨e, he, hends⟩ := hinc
  exact ⟨e, he, by rcases hends with h | h <;> simp [h]⟩

theorem assemble_ok {out : ExpandOut} {edescs : List (String × String)} {g : Built}
    (h : assemble out edescs = Except.ok g) :
    ∃ newEdges,
      buildEdges (out.arenaB ++ buildPlainNodes out.plains)
        (out.nodesB ++ (List.range (buildPlainNodes out.plains).length).map
          (fun k => k + out.arenaB.length)) edescs = Except.ok newEdges
      ∧ g.arena = injectLlm (out.arenaB ++ buildPlainNodes out.plains)
          (out.nodesB ++ (List.range (buildPlainNodes out.plains).length).map
            (fun k => k + out.arenaB.length))
      ∧ g.nodes = pruneNodes
          (out.nodesB ++ (List.range (buildPlainNodes out.plains).length).map
            (fun k => k + out.arenaB.length))
          (out.edgesB ++ newEdges)
      ∧ g.edges = out.edgesB ++ newEdges := by
  simp only [assemble] at h
  cases hbe : buildEdges (out.arenaB ++ buildPlainNodes out.plains)
      (out.nodesB ++ (List.range (buildPlainNodes out.plains).length).map
        (fun k => k + out.arenaB.length)) edescs with
  | error e => rw [hbe] at h; exact absurd h (by simp)
  | ok newEdges =>
    rw [hbe] at h
    simp only [Except.ok.injEq] at h
    exact ⟨newEdges, rfl, by rw [← h], by rw [← h], by rw [← h]⟩

theorem expandAllF_nil (f : Nat) : expandAllF (f + 1) [] = Except.ok ⟨[], [], [], []⟩ := by
  simp [expandAllF]

theorem expandAllF_plain_ok {f : Nat} {pid t lc : String} {rest : List NodeDesc}
    {out : ExpandOut}
    (h : expandAllF (f + 1) (NodeDesc.plain pid t lc :: rest) = Except.ok out) :
    ∃ outR, expandAllF f rest = Except.ok outR
      ∧ out = ⟨outR.arenaB, outR.nodesB, outR.edgesB, ⟨pid, t, lc⟩ :: outR.plains⟩ := by
  simp only [expandAllF] at h
  cases hR : expandAllF f rest with
  | error e => rw [hR] at h; simp at h
  | ok outR =>
    rw [hR] at h
    simp only [Except.ok.injEq] at h
    exact ⟨outR, rfl, h.symm⟩

theorem expandAllF_plain_eq {f : Nat} {pid t lc : String} {rest : List NodeDesc}
    {outR : ExpandOut} (hR : expandAllF f rest = Except.ok outR) :
    expandAllF (f + 1) (NodeDesc.plain pid t lc :: rest)
      = Except.ok ⟨outR.arenaB, outR.nodesB, outR.edgesB, ⟨pid, t, lc⟩ :: outR.plains⟩ := by
  simp only [expandAllF]
  rw [hR]

theorem expandAllF_flow_ok {f : Nat} {fid : String} {subN : List NodeDesc}
    {subE : List (String × String)} {rest : List NodeDesc} {out : ExpandOut}
    (h : expandAllF (f + 1) (NodeDesc.flow fid subN subE :: rest) = Except.ok out) :
    ∃ outS sg ri outT,
      expandAllF f subN = Except.ok outS
      ∧ assemble outS subE = Except.ok sg
      ∧ getRootNode sg = some ri
      ∧ expandAllF f rest = Except.ok outT
      ∧ out = ⟨renameArena sg ri fid ++ outT.arenaB,
               sg.nodes ++ outT.nodesB.map (fun i => i + (renameArena sg ri fid).length),
               repointEdges sg ri (sg.arena.getD ri default).vid (renameArena sg ri fid)
                 ++ outT.edgesB.map (fun e => (e.1 + (renameArena sg ri fid).length,
                                              e.2 + (renameArena sg ri fid).length)),
               outT.plains⟩ := by
  simp only [expandAllF] at h
  cases hS : expandAllF f subN with
  | error e => rw [hS] at h; simp at h
  | ok outS =>
    rw [hS] at h
    dsimp only at h
    cases hA : assemble outS subE with
    | error e => rw [hA] at h; simp at h
    | ok sg =>
      rw [hA] at h
      dsimp only at h
      cases hRi : getRootNode sg with
      | none => rw [hRi] at h; simp at h
      | some ri =>
        rw [hRi] at h
        dsimp only at h
        cases hT : expandAllF f rest with
        | error e => rw [hT] at h; simp at h
        | ok outT =>
          rw [hT] at h
          simp only [Except.ok.injEq] at h
          exact ⟨outS, sg, ri, outT, rfl, hA, hRi, rfl, h.symm⟩

theorem expandAllF_flow_eq {f : Nat} {fid : String} {subN : List NodeDesc}
    {subE : List (String × String)} {rest : List NodeDesc}
    {outS : ExpandOut} {sg : Built} {ri : Nat} {outT : ExpandOut}
    (hS : expandAllF f subN = Except.ok outS)
    (hA : assemble outS subE = Except.ok sg)
    (hRi : getRootNode sg = some ri)
    (hT : expandAllF f rest = Except.ok outT) :
    expandAllF (f + 1) (NodeDesc.flow fid subN subE :: rest)
      = Except.ok ⟨renameArena sg ri fid ++ outT.arenaB,
               sg.nodes ++ outT.nodesB.map (fun i => i + (renameArena sg ri fid).length),
               repointEdges sg ri (sg.arena.getD ri default).vid (renameArena sg ri fid)
                 ++ outT.edgesB.map (fun e => (e.1 + (renameArena sg ri fid).length,
                                              e.2 + (renameArena sg ri fid).length)),
               outT.plains⟩ := by
  simp only [expandAllF]
  rw [hS]
  dsimp only
  rw [hA]
  dsimp only
  rw [hRi]
  dsimp only
  rw [hT]

theorem buildGraphD_ok {descs : List NodeDesc} {edescs : List (String × String)} {g : Built}
    (h : buildGraphD descs edescs = Except.ok g) :
    ∃ out, expandAllF (descsSize descs) descs = Except.ok out
      ∧ assemble out edescs = Except.ok g := by
  unfold buildGraphD at h
  cases hE : expandAllF (descsSize descs) descs with
  | error e => rw [hE] at h; simp at h
  | ok out =>
    rw [hE] at h
    exact ⟨out, rfl, h⟩

theorem expandAllF_mono :
    ∀ (f : Nat) (l : List NodeDesc) (out : ExpandOut),
    expandAllF f l = Except.ok out → expandAllF (f + 1) l = Except.ok out := by
  intro f
  induction f with
  | zero => intro l out h; simp [expandAllF] at h
  | succ n ih =>
    intro l out h
    match l with
    | [] =>
      rw [expandAllF_nil] at h
      rw [expandAllF_nil]
      exact h
    | NodeDesc.plain pid t lc :: rest =>
      obtain ⟨outR, hR, rfl⟩ := expandAllF_plain_ok h
      exact expandAllF_plain_eq (ih rest outR hR)
    | NodeDesc.flow fid subN subE :: rest =>
      obtain ⟨outS, sg, ri, outT, hS, hA, hRi, hT, rfl⟩ := expandAllF_flow_ok h
      exact expandAllF_flow_eq (ih subN outS hS) hA hRi (ih rest outT hT)

theorem expandAllF_mono_le {f f2 : Nat} (hle : f ≤ f2) :
    ∀ {l : List NodeDesc} {out : ExpandOut},
    expandAllF f l = Except.ok out → expandAllF f2 l = Except.ok out := by
  induction f2 with
  | zero =>
    intro l out h
    have : f = 0 := by omega
    rw [this] at h
    simp [expandAllF] at h
  | succ n ih =>
    intro l out h
    by_cases heq : f = n + 1
    · rw [← heq]; exact h
    · have : f ≤ n := by omega
      exact expandAllF_mono n l out (ih this h)

theorem expandAllF_suff :
    ∀ (f : Nat) (l : List NodeDesc) (out : ExpandOut),
    expandAllF f l = Except.ok out → expandAllF (descsSize l) l = Except.ok out := by
  intro f
  induction f with
  | zero => intro l out h; simp [expandAllF] at h
  | succ n ih =>
    intro l out h
    match l with
    | [] =>
      rw [expandAllF_nil] at h
      rw [show descsSize [] = 1 from rfl, expandAllF_nil]
      exact h
    | NodeDesc.plain pid t lc :: rest =>
      obtain ⟨outR, hR, rfl⟩ := expandAllF_plain_ok h
      have hrest := ih rest outR hR
      have hsize : descsSize (NodeDesc.plain pid t lc :: rest) = descsSize rest + 2 := by
        simp [descsSize, descSize]
        omega
      rw [hsize]
      exact expandAllF_plain_eq (expandAllF_mono_le (by omega) hrest)
    | NodeDesc.flow fid subN subE :: rest =>
      obtain ⟨outS, sg, ri, outT, hS, hA, hRi, hT, rfl⟩ := expandAllF_flow_ok h
      have hsub := ih subN outS hS
      have hrest := ih rest outT hT
      have hsize : descsSize (NodeDesc.flow fid subN subE :: rest)
          = descsSize subN + descsSize rest + 2 := by
        simp [descsSize, descSize]
        omega
      rw [hsize]
      exact expandAllF_flow_eq
        (expandAllF_mono_le (by omega) hsub) hA hRi
        (expandAllF_mono_le (by omega) hrest)

theorem renameArena_length (sg : Built) (ri : Nat) (fid : String) :
    (renameArena sg ri fid).length = sg.arena.length := by
  unfold renameArena
  exact List.length_set sg.arena ri _

theorem assemble_nodes_lt {out : ExpandOut} {edescs : List (String × String)} {g : Built}
    (hvalid : ∀ i ∈ out.nodesB, i < out.arenaB.length)
    (h : assemble out edescs = Except.ok g) :
    ∀ i ∈ g.nodes, i < g.arena.length := by
  obtain ⟨newEdges, hbe, harena, hnodes, hedges⟩ := assemble_ok h
  intro i hi
  rw [hnodes] at hi
  have hi2 := pruneNodes_subset hi
  rw [harena, injectLlm_length, List.length_append]
  rcases List.mem_append.mp hi2 with h1 | h1
  · have := hvalid i h1
    omega
  · obtain ⟨k, hk, rfl⟩ := List.mem_map.mp h1
    rw [List.mem_range] at hk
    omega

theorem expandAllF_nodes_lt :
    ∀ (f : Nat) (l : List NodeDesc) (out : ExpandOut),
    expandAllF f l = Except.ok out → ∀ i ∈ out.nodesB, i < out.arenaB.length := by
  intro f
  induction f with
  | zero => intro l out h; simp [expandAllF] at h
  | succ n ih =>
    intro l out h
    match l with
    | [] =>
      rw [expandAllF_nil] at h
      cases h
      intro i hi
      simp at hi
    | NodeDesc.plain pid t lc :: rest =>
      obtain ⟨outR, hR, rfl⟩ := expandAllF_plain_ok h
      exact ih rest outR hR
    | NodeDesc.flow fid subN subE :: rest =>
      obtain ⟨outS, sg, ri, outT, hS, hA, hRi, hT, rfl⟩ := expandAllF_flow_ok h
      intro i hi
      dsimp only at hi ⊢
      rw [List.length_append]
      have hsg : ∀ i2 ∈ sg.nodes, i2 < sg.arena.length :=
        assemble_nodes_lt (ih subN outS hS) hA
      rcases List.mem_append.mp hi with h1 | h1
      · have := hsg i h1
        rw [renameArena_length]
        omega
      · obtain ⟨k, hk, rfl⟩ := List.mem_map.mp h1
        have := ih rest outT hT k hk
        omega

theorem expandAllF_plains_mem :
    ∀ (f : Nat) (l : List NodeDesc) (out : ExpandOut),
    expandAllF f l = Except.ok out →
    ∀ p ∈ out.plains, NodeDesc.plain p.pid p.vtype p.lcType ∈ l := by
  intro f
  induction f with
  | zero => intro l out h; simp [expandAllF] at h
  | succ n ih =>
    intro l out h
    match l with
    | [] =>
      rw [expandAllF_nil] at h
      cases h
      intro p hp
      simp at hp
    | NodeDesc.plain pid t lc :: rest =>
      obtain ⟨outR, hR, rfl⟩ := expandAllF_plain_ok h
      intro p hp
      dsimp only at hp
      rcases List.mem_cons.mp hp with rfl | hp
      · exact List.mem_cons_self _ _
      · exact List.mem_cons_of_mem _ (ih rest outR hR p hp)
    | NodeDesc.flow fid subN subE :: rest =>
      obtain ⟨outS, sg, ri, outT, hS, hA, hRi, hT, rfl⟩ := expandAllF_flow_ok h
      intro p hp
      dsimp only at hp
      exact List.mem_cons_of_mem _ (ih rest outT hT p hp)

theorem buildPlainNodes_mem {plains : List PlainDesc} {bv : BVertex}
    (h : bv ∈ buildPlainNodes plains) :
    ∃ p ∈ plains, ¬(p.vtype == "flow") = true ∧ bv = ⟨p.pid, resolveClass p.vtype p.lcType, []⟩ := by
  unfold buildPlainNodes at h
  obtain ⟨p, hp, hf⟩ := List.mem_filterMap.mp h
  by_cases hflow : (p.vtype == "flow") = true
  · rw [if_pos hflow] at hf
    exact absurd hf (by simp)
  · rw [if_neg hflow] at hf
    simp only [Option.some.injEq] at hf
    exact ⟨p, hp, hflow, hf.symm⟩

theorem expandAllF_ids :
    ∀ (f : Nat) (l : List NodeDesc) (out : ExpandOut),
    expandAllF f l = Except.ok out →
    ∀ i ∈ out.nodesB, ∃ d ∈ l, ∃ ids, contribIds d = Except.ok ids
      ∧ (out.arenaB.getD i default).vid ∈ ids := by
  intro f
  induction f with
  | zero => intro l out h; simp [expandAllF] at h
  | succ n ih =>
    intro l out h
    match l with
    | [] =>
      rw [expandAllF_nil] at h
      cases h
      intro i hi
      simp at hi
    | NodeDesc.plain pid t lc :: rest =>
      obtain ⟨outR, hR, rfl⟩ := expandAllF_plain_ok h
      intro i hi
      dsimp only at hi ⊢
      obtain ⟨d, hd, ids, hids, hmem⟩ := ih rest outR hR i hi
      exact ⟨d, List.mem_cons_of_mem _ hd, ids, hids, hmem⟩
    | NodeDesc.flow fid subN subE :: rest =>
      obtain ⟨outS, sg, ri, outT, hS, hA, hRi, hT, rfl⟩ := expandAllF_flow_ok h
      intro i hi
      dsimp only at hi ⊢
      have hcontrib : contribIds (NodeDesc.flow fid subN subE)
          = Except.ok (sg.nodes.map (fun i2 => ((renameArena sg ri fid).getD i2 default).vid)) := by
        have hbg : buildGraphD subN subE = Except.ok sg := by
          unfold buildGraphD
          rw [expandAllF_suff n subN outS hS]
          exact hA
        simp only [contribIds]
        rw [hbg]
        dsimp only
        rw [hRi]
      rcases List.mem_append.mp hi with h1 | h1
      · refine ⟨NodeDesc.flow fid subN subE, List.mem_cons_self _ _,
          sg.nodes.map (fun i2 => ((renameArena sg ri fid).getD i2 default).vid), hcontrib, ?_⟩
        have hsg : ∀ i2 ∈ sg.nodes, i2 < sg.arena.length :=
          assemble_nodes_lt (expandAllF_nodes_lt n subN outS hS) hA
        have hlt : i < (renameArena sg ri fid).length := by
          rw [renameArena_length]
          exact hsg i h1
        rw [getD_append_left hlt]
        exact List.mem_map.mpr ⟨i, h1, rfl⟩
      · obtain ⟨k, hk, rfl⟩ := List.mem_map.mp h1
        obtain ⟨d, hd, ids, hids, hmem⟩ := ih rest outT hT k hk
        refine ⟨d, List.mem_cons_of_mem _ hd, ids, hids, ?_⟩
        rw [getD_append_right (by omega)]
        rw [show k + (renameArena sg ri fid).length - (renameArena sg ri fid).length = k
          from by omega]
        exact hmem

/-! ### Claim C2: flow inlining preserves external bindings -/

/-- Claim C2: consider a parent graph whose descriptor list contains a
flow node `F` (id `fid`, embedded subgraph `subN`/`subE`) and whose raw
edges contain `A → F` (descriptor `(a, fid)`).  Let the flow node's
subgraph build to `sg` with root vertex `ri` originally named `r0`,
where `r0` names nothing else: not the other subgraph vertices, not the
flow node itself, and not the contribution of any sibling descriptor.
Then after construction the graph contains an edge from a vertex with
id `a` to a vertex `R` with `R.id` equal to `F`'s id (both endpoints
surviving the pruning pass), and no vertex with id `r0` remains in the
graph — the inlined root was renamed to `fid`. -/
theorem c2_flow_inlining
    (pre post : List NodeDesc) (edescs : List (String × String))
    (fid r0 a : String) (subN : List NodeDesc) (subE : List (String × String))
    (g sg : Built) (ri : Nat)
    (hbuild : buildGraphD (pre ++ NodeDesc.flow fid subN subE :: post) edescs = Except.ok g)
    (hedge : (a, fid) ∈ edescs)
    (hsub : buildGraphD subN subE = Except.ok sg)
    (hri : getRootNode sg = some ri)
    (hr0 : (sg.arena.getD ri default).vid = r0)
    (hr0unique : ∀ i ∈ sg.nodes, i ≠ ri → (sg.arena.getD i default).vid ≠ r0)
    (hfid : fid ≠ r0)
    (hothers : ∀ d ∈ pre ++ post, ∀ ids, contribIds d = Except.ok ids → r0 ∉ ids) :
    (∃ i j, (i, j) ∈ g.edges ∧ i ∈ g.nodes ∧ j ∈ g.nodes
      ∧ (g.arena.getD i default).vid = a ∧ (g.arena.getD j default).vid = fid)
    ∧ (∀ i ∈ g.nodes, (g.arena.getD i default).vid ≠ r0) := by
  obtain ⟨out, hexp, hasm⟩ := buildGraphD_ok hbuild
  obtain ⟨newEdges, hbe, harena, hnodes, hedges⟩ := assemble_ok hasm
  constructor
  · obtain ⟨i, j, hmemE, hga, hgf⟩ := buildEdges_ok_mem hbe (a, fid) hedge
    obtain ⟨hiL, hvidA⟩ := getNode_eq_some hga
    obtain ⟨hjL, hvidF⟩ := getNode_eq_some hgf
    refine ⟨i, j, ?_, ?_, ?_, ?_, ?_⟩
    · rw [hedges]
      exact List.mem_append.mpr (Or.inr hmemE)
    · rw [hnodes]
      exact pruneNodes_keep_endpoint hiL
        ⟨(i, j), List.mem_append.mpr (Or.inr hmemE), Or.inl rfl⟩
    · rw [hnodes]
      exact pruneNodes_keep_endpoint hjL
        ⟨(i, j), List.mem_append.mpr (Or.inr hmemE), Or.inr rfl⟩
    · rw [harena, injectLlm_vid]
      exact hvidA
    · rw [harena, injectLlm_vid]
      exact hvidF
  · intro i hi
    rw [harena, injectLlm_vid]
    rw [hnodes] at hi
    have hiL := pruneNodes_subset hi
    rcases List.mem_append.mp hiL with hB | hP
    · have hlt := expandAllF_nodes_lt _ _ _ hexp i hB
      rw [getD_append_left hlt]
      obtain ⟨d, hd, ids, hids, hvm⟩ := expandAllF_ids _ _ _ hexp i hB
      rcases List.mem_append.mp hd with hdpre | hdc
      · intro hcontra
        exact hothers d (List.mem_append.mpr (Or.inl hdpre)) ids hids (hcontra ▸ hvm)
      · rcases List.mem_cons.mp hdc with hdF | hdpost
        · subst hdF
          have hc : contribIds (NodeDesc.flow fid subN subE)
              = Except.ok (sg.nodes.map
                  (fun i2 => ((renameArena sg ri fid).getD i2 default).vid)) := by
            simp only [contribIds]
            rw [hsub]
            dsimp only
            rw [hri]
          rw [hc] at hids
          simp only [Except.ok.injEq] at hids
          subst hids
          obtain ⟨i2, hi2, hvid2⟩ := List.mem_map.mp hvm
          intro hcontra
          rw [hcontra] at hvid2
          obtain ⟨outS2, hexp2, hasm2⟩ := buildGraphD_ok hsub
          have hsgval : ∀ i3 ∈ sg.nodes, i3 < sg.arena.length :=
            assemble_nodes_lt (expandAllF_nodes_lt _ _ _ hexp2) hasm2
          by_cases hi2ri : i2 = ri
          · subst hi2ri
            have hlt2 : i2 < sg.arena.length := hsgval i2 hi2
            have : ((renameArena sg i2 fid).getD i2 default).vid = fid := by
              unfold renameArena
              simp [List.getD, List.getElem?_set_self, hlt2]
            rw [this] at hvid2
            exact hfid hvid2
          · have : ((renameArena sg ri fid).getD i2 default).vid
                = (sg.arena.getD i2 default).vid := by
              unfold renameArena
              simp [List.getD, List.getElem?_set_ne (fun he => hi2ri he.symm)]
            rw [this] at hvid2
            exact hr0unique i2 hi2 hi2ri hvid2
        · intro hcontra
          exact hothers d (List.mem_append.mpr (Or.inr hdpost)) ids hids (hcontra ▸ hvm)
    · obtain ⟨k, hk, rfl⟩ := List.mem_map.mp hP
      rw [List.mem_range] at hk
      rw [getD_append_right (by omega)]
      rw [show k + out.arenaB.length - out.arenaB.length = k from by omega]
      have hmem : (buildPlainNodes out.plains).getD k default ∈ buildPlainNodes out.plains := by
        rw [List.getD_eq_getElem _ _ hk]
        exact List.getElem_mem hk
      obtain ⟨p, hp, hnotflow, hbv⟩ := buildPlainNodes_mem hmem
      rw [hbv]
      have hpd := expandAllF_plains_mem _ _ _ hexp p hp
      have hpd2 : NodeDesc.plain p.pid p.vtype p.lcType ∈ pre ++ post := by
        rcases List.mem_append.mp hpd with h1 | h1
        · exact List.mem_append.mpr (Or.inl h1)
        · rcases List.mem_cons.mp h1 with h2 | h2
          · exact absurd h2 (by simp)
          · exact List.mem_append.mpr (Or.inr h2)
      have hcontrib : contribIds (NodeDesc.plain p.pid p.vtype p.lcType)
          = Except.ok [p.pid] := by
        simp only [contribIds]
        rw [if_neg hnotflow]
      have := hothers _ hpd2 [p.pid] hcontrib
      intro hcontra
      apply this
      rw [← hcontra]
      simp

/-- Witness for C2: a parent graph `A → F` where `F` inlines a subgraph
whose root is originally named "r0" (fed by "B").  After construction
the edge binds `A` to the renamed root (id "F") and no vertex named
"r0" remains. -/
theorem c2_witness :
    ∃ g, buildGraphD
        [NodeDesc.plain "A" "LLM" "",
         NodeDesc.flow "F" [NodeDesc.plain "r0" "x" "", NodeDesc.plain "B" "y" ""] [("B", "r0")]]
        [("A", "F")] = Except.ok g
      ∧ ((∃ i j, (i, j) ∈ g.edges ∧ i ∈ g.nodes ∧ j ∈ g.nodes
          ∧ (g.arena.getD i default).vid = "A" ∧ (g.arena.getD j default).vid = "F")
        ∧ (∀ i ∈ g.nodes, (g.arena.getD i default).vid ≠ "r0")) := by
  refine ⟨_, rfl, ?_⟩
  exact c2_flow_inlining [NodeDesc.plain "A" "LLM" ""] [] [("A", "F")] "F" "r0" "A"
    [NodeDesc.plain "r0" "x" "", NodeDesc.plain "B" "y" ""] [("B", "r0")]
    _ ⟨[⟨"r0", VKind.generic, []⟩, ⟨"B", VKind.generic, []⟩], [0, 1], [(1, 0)]⟩ 0
    rfl (by decide) rfl rfl rfl (by decide) (by decide)
    (by
      intro d hd ids hids
      simp only [List.append_nil, List.mem_singleton] at hd
      subst hd
      rw [show contribIds (NodeDesc.plain "A" "LLM" "") = Except.ok ["A"] from rfl] at hids
      simp only [Except.ok.injEq] at hids
      subst hids
      decide)
